import Mathlib

/-!
# Verification of the MediSense lab-analysis core

Shallow embedding of `services/labAnalyzer.js` (value extraction, severity
rule engine, response normalization, local fallback), `config/labThresholds.js`
(the flat-severity table the analyzer requires), and
`reportAnalyzer.js` (`mergeLabInsightsIntoSections`), together with proofs
about the claims of the specification.

Modelling conventions:
* JavaScript numbers are modelled as `JsNum`: exact rationals plus `NaN` and
  the two signed infinities (no negative zero; rounding of IEEE doubles is not
  modelled — all comparisons under verification involve exact decimal
  configuration constants).
* `undefined`/missing record fields are modelled with `Option`.
* Free text is modelled as `List Char`; analyte keys as `String`.
* Fallible operations return `Option`/`Except`.
-/

namespace MediSense

/-- JavaScript numeric values as used by the rule engine: finite rationals,
`NaN` and the signed infinities. -/
inductive JsNum where
  | nan
  | posInf
  | negInf
  | fin (q : ℚ)
deriving DecidableEq, Repr

/-- JavaScript `<` on numbers: any comparison involving `NaN` is false. -/
def jsLt : JsNum → JsNum → Bool
  | .nan, _ => false
  | _, .nan => false
  | .negInf, .negInf => false
  | .negInf, _ => true
  | _, .negInf => false
  | .posInf, _ => false
  | .fin _, .posInf => true
  | .fin a, .fin b => a < b

/-- JavaScript `>` on numbers. -/
def jsGt (a b : JsNum) : Bool := jsLt b a

/-- JavaScript division. Division by zero yields a signed infinity (or `NaN`
for `0/0`); negative zero is not distinguished from zero. -/
def jsDiv : JsNum → JsNum → JsNum
  | .nan, _ => .nan
  | _, .nan => .nan
  | .posInf, .posInf => .nan
  | .posInf, .negInf => .nan
  | .negInf, .posInf => .nan
  | .negInf, .negInf => .nan
  | .posInf, .fin b => if b < 0 then .negInf else .posInf
  | .negInf, .fin b => if b < 0 then .posInf else .negInf
  | .fin _, .posInf => .fin 0
  | .fin _, .negInf => .fin 0
  | .fin a, .fin b =>
    if b = 0 then (if a = 0 then .nan else if a < 0 then .negInf else .posInf)
    else .fin (a / b)

/-- Sex-specific bound overrides of a threshold entry
(`male:`/`female:` sub-objects in `config/labThresholds.js`). -/
structure SexRange where
  normalLow : Option ℚ := none
  normalHigh : Option ℚ := none
deriving DecidableEq, Repr

/-- The per-analyte `severity` ratio-cutoff object of `config/labThresholds.js`. -/
structure SeverityConf where
  mild : Option ℚ := none
  moderate : Option ℚ := none
  severe : Option ℚ := none
deriving DecidableEq, Repr

/-- One entry of the threshold table (`config/labThresholds.js`). -/
structure LabThreshold where
  unit : String
  normalLow : Option ℚ := none
  normalHigh : Option ℚ := none
  male : Option SexRange := none
  female : Option SexRange := none
  severity : SeverityConf
deriving DecidableEq, Repr

/-- The `hemoglobin` entry of `config/labThresholds.js` (sex-specific bounds
only, no generic bounds). -/
def hemoglobinThreshold : LabThreshold :=
  { unit := "g/dL"
    male := some { normalLow := some 13.5, normalHigh := some 17.5 }
    female := some { normalLow := some 12.0, normalHigh := some 15.5 }
    severity := { mild := some 0.95, moderate := some 0.85, severe := some 0.7 } }

/-- The `platelet` entry of `config/labThresholds.js`. -/
def plateletThreshold : LabThreshold :=
  { unit := "10^9/L"
    normalLow := some 150, normalHigh := some 450
    severity := { mild := some 0.9, moderate := some 0.7, severe := some 0.5 } }

/-- The `glucose_fasting` entry of `config/labThresholds.js`. -/
def glucoseFastingThreshold : LabThreshold :=
  { unit := "mg/dL"
    normalLow := some 70, normalHigh := some 99
    severity := { mild := some 1.1, moderate := some 1.25, severe := some 1.5 } }

/-- `config/labThresholds.js`: the threshold table required by
`services/labAnalyzer.js` (flat `severity` object schema). -/
def labThresholds : String → Option LabThreshold := fun key =>
  if key = "hemoglobin" then some hemoglobinThreshold
  else if key = "platelet" then some plateletThreshold
  else if key = "glucose_fasting" then some glucoseFastingThreshold
  else none

/-- The patient metadata consumed by the rule engine (`patientMeta.sex`);
a missing `sex` is modelled as the empty string, matching `patientMeta.sex || ''`. -/
structure PatientMeta where
  sex : String := ""
deriving DecidableEq, Repr

/-- `toLowerCase`, computed on the underlying character list. -/
def lowerStr (s : String) : String := ⟨s.data.map Char.toLower⟩

/-- Resolution of the sex-specific override object: `conf[sex]` where `sex`
is the lower-cased metadata string. Indexing with any string other than
`"male"`/`"female"` either misses or hits a non-range property whose
`normalLow`/`normalHigh` are undefined, which leaves both bounds unchanged,
so it is modelled as a miss. -/
def sexOverride (conf : LabThreshold) (sex : String) : Option SexRange :=
  if sex = "male" then conf.male
  else if sex = "female" then conf.female
  else none

/-- The resolved `(normalLow, normalHigh)` pair of `assessValue`:
each bound is taken from the sex override when that override defines it
(`conf[sex].normalLow ?? normalLow`), else from the generic entry. -/
def resolvedBounds (conf : LabThreshold) (meta : PatientMeta) : Option ℚ × Option ℚ :=
  match sexOverride conf (lowerStr meta.sex) with
  | some sr =>
    (match sr.normalLow with
     | some x => some x
     | none => conf.normalLow,
     match sr.normalHigh with
     | some x => some x
     | none => conf.normalHigh)
  | none => (conf.normalLow, conf.normalHigh)

/-- The hard-coded fallback cutoffs of `assessValue`
(`conf.severity.severe ?? 0.7`, `?? 0.85`, `?? 1.5`, `?? 1.2`).
They are kept as an explicit parameter so that independence of the
classification from these globals can be stated. -/
structure SeverityDefaults where
  lowSevere : ℚ
  lowModerate : ℚ
  highSevere : ℚ
  highModerate : ℚ
deriving DecidableEq, Repr

/-- The literal defaults appearing in `assessValue`. -/
def builtinDefaults : SeverityDefaults :=
  { lowSevere := 0.7, lowModerate := 0.85, highSevere := 1.5, highModerate := 1.2 }

/-- The result record of `assessValue`. In the unconfigured-key case the
source object carries no `unit`/`normalRange` fields; this is modelled with
`unit := ""` and `(none, none)` plus the `note` marker. -/
structure Assessment where
  key : String
  value : JsNum
  unit : String
  normalRange : Option ℚ × Option ℚ
  status : String
  severity : String
  note : Option String
deriving DecidableEq, Repr

/-- The `(severity, status)` classification of `assessValue` against resolved
bounds, with the fallback cutoffs abstracted into `d`. Mirrors the source:
`lowerIsBad` holds when both bounds are numbers and `value < (normalLow || Infinity)`
(a zero `normalLow` is falsy, giving `Infinity`). -/
def classifyPair (d : SeverityDefaults) (conf : LabThreshold)
    (nl nh : Option ℚ) (value : JsNum) : String × String :=
  let lowerIsBad : Bool :=
    match nl, nh with
    | some l, some _ => jsLt value (if l = 0 then JsNum.posInf else JsNum.fin l)
    | _, _ => false
  if lowerIsBad then
    match nl with
    | some l =>
      let pct := jsDiv value (JsNum.fin l)
      if jsLt pct (JsNum.fin (conf.severity.severe.getD d.lowSevere)) then ("severe", "low")
      else if jsLt pct (JsNum.fin (conf.severity.moderate.getD d.lowModerate)) then ("moderate", "low")
      else if jsLt pct (JsNum.fin 1) then ("mild", "low")
      else ("normal", "normal")
    | none => ("normal", "normal")
  else
    match nh with
    | some h =>
      if jsGt value (JsNum.fin h) then
        let ratio := jsDiv value (JsNum.fin h)
        if jsGt ratio (JsNum.fin (conf.severity.severe.getD d.highSevere)) then ("severe", "high")
        else if jsGt ratio (JsNum.fin (conf.severity.moderate.getD d.highModerate)) then ("moderate", "high")
        else ("mild", "high")
      else ("normal", "normal")
    | none => ("normal", "normal")

/-- `assessValue` with the hard-coded fallback cutoffs abstracted. -/
def assessValueD (d : SeverityDefaults) (key : String) (value : JsNum)
    (meta : PatientMeta) : Assessment :=
  match labThresholds key with
  | none =>
    { key := key, value := value, unit := "", normalRange := (none, none)
      status := "unknown", severity := "unknown", note := some "No threshold configured" }
  | some conf =>
    let nl := (resolvedBounds conf meta).1
    let nh := (resolvedBounds conf meta).2
    let p := classifyPair d conf nl nh value
    { key := key, value := value, unit := conf.unit, normalRange := (nl, nh)
      status := p.2, severity := p.1, note := none }

/-- `assessValue` of `services/labAnalyzer.js`. -/
def assessValue (key : String) (value : JsNum) (meta : PatientMeta) : Assessment :=
  assessValueD builtinDefaults key value meta

/-- Badness order on severity strings: `normal < mild < moderate < severe`. -/
def badness : String → Nat
  | "mild" => 1
  | "moderate" => 2
  | "severe" => 3
  | _ => 0

/-! ## Value extraction (`normalizeText`, `patterns`, `parseLabValues`)

The three extraction regexes share one shape: an alternation of literal
labels, then `[^0-9]{0,20}` (greedy, with backtracking), then a captured
numeral (`\d+(?:\.\d+)?`, or `[0-9,]+(?:\.\d+)?` for platelets).  The
matcher below implements exactly this family with JavaScript leftmost-first
semantics.  The optional `s` of `platelet(?:s)?` is expanded into the
alternative list `platelets, platelet` (greedy option = longer literal
first), which is the same backtracking order. -/

/-- `normalizeText`: `\r`, `\n`, `\t` become spaces, then lower-casing. -/
def normalizeText (s : String) : List Char :=
  ((((s.data.map fun c => if c = '\r' then ' ' else c).map
      fun c => if c = '\n' then ' ' else c).map
      fun c => if c = '\t' then ' ' else c).map Char.toLower)

/-- Literal prefix match; returns the remaining text. -/
def matchLit : List Char → List Char → Option (List Char)
  | [], s => some s
  | _ :: _, [] => none
  | a :: as, c :: cs => if a = c then matchLit as cs else none

/-- The numeral class of `\d`. -/
def digitCls (c : Char) : Bool := c.isDigit

/-- The numeral class of `[0-9,]`. -/
def digitCommaCls (c : Char) : Bool := c.isDigit || c = ','

/-- The optional greedy fraction `(?:\.\d+)?` at the head of the text,
returning the matched characters (empty if the group does not match). -/
def fracTail : List Char → List Char
  | '.' :: c :: rest => if c.isDigit then '.' :: c :: rest.takeWhile Char.isDigit else []
  | _ => []

/-- Greedy `cls+(?:\.\d+)?` at the head of the text: the capture group's
content, or `none` if no class character is present. -/
def matchNumeral (cls : Char → Bool) (s : List Char) : Option (List Char) :=
  let run := s.takeWhile cls
  if run.isEmpty then none
  else some (run ++ fracTail (s.dropWhile cls))

/-- Backtracking for `[^0-9]{0,20}` then the numeral: try gap width `k`
first, then shrink. -/
def tryGapAux (cls : Char → Bool) (s : List Char) : Nat → Option (List Char)
  | 0 => matchNumeral cls s
  | k + 1 =>
    match matchNumeral cls (s.drop (k + 1)) with
    | some cap => some cap
    | none => tryGapAux cls s k

/-- Greedy `[^0-9]{0,20}` followed by the numeral: the widest admissible
gap is `min 20` of the non-digit run. -/
def tryGap (cls : Char → Bool) (s : List Char) : Option (List Char) :=
  tryGapAux cls s (min (s.takeWhile fun c => ¬ c.isDigit).length 20)

/-- The label alternation at a fixed position: alternatives in source order,
each followed by gap + numeral (failure backtracks into the next label). -/
def tryAlts (alts : List (List Char)) (cls : Char → Bool) (s : List Char) :
    Option (List Char) :=
  alts.findSome? fun a =>
    match matchLit a s with
    | some rest => tryGap cls rest
    | none => none

/-- Leftmost match: scan positions left to right. -/
def scanMatch (alts : List (List Char)) (cls : Char → Bool) : List Char → Option (List Char)
  | [] => none
  | c :: rest =>
    match tryAlts alts cls (c :: rest) with
    | some cap => some cap
    | none => scanMatch alts cls rest

/-- One extraction pattern of the `patterns` table: key, label alternatives
(in the regex's alternation order), numeral class.  The unused `names`
metadata of the source entries is not modelled. -/
structure LabPattern where
  key : String
  alts : List (List Char)
  numCls : Char → Bool

/-- The hemoglobin pattern: `/(?:hemoglobin|hgb|hb)[^0-9]{0,20}(\d+(?:\.\d+)?)/i`. -/
def hemoglobinPattern : LabPattern :=
  { key := "hemoglobin"
    alts := ["hemoglobin".data, "hgb".data, "hb".data], numCls := digitCls }

/-- The platelet pattern: `/(?:platelet(?:s)?|plt)[^0-9]{0,20}([0-9,]+(?:\.\d+)?)/i`. -/
def plateletPattern : LabPattern :=
  { key := "platelet"
    alts := ["platelets".data, "platelet".data, "plt".data], numCls := digitCommaCls }

/-- The glucose pattern: `/(?:fasting glucose|glucose|fbs)[^0-9]{0,20}(\d+(?:\.\d+)?)/i`. -/
def glucoseFastingPattern : LabPattern :=
  { key := "glucose_fasting"
    alts := ["fasting glucose".data, "glucose".data, "fbs".data], numCls := digitCls }

/-- The `patterns` table of `services/labAnalyzer.js`. -/
def patterns : List LabPattern :=
  [hemoglobinPattern, plateletPattern, glucoseFastingPattern]

/-- Comma removal (`String(m[1]).replace(/,/g, '')`). -/
def stripCommas (s : List Char) : List Char := s.filter fun c => c ≠ ','

/-- The numeric value of one decimal digit character. -/
def digitVal (c : Char) : Nat := c.toNat - 48

/-- Decimal digits to a natural number. -/
def digitsToNat (ds : List Char) : Nat := ds.foldl (fun acc c => acc * 10 + digitVal c) 0

/-- `parseFloat` on the unsigned decimal forms the extraction captures can
take (digits, digits.digits, .digits, or digit-free text); a digit-free
input yields `NaN`, modelled as `none`. -/
def parseFloatQ (s : List Char) : Option ℚ :=
  let intDigits := s.takeWhile Char.isDigit
  match s.dropWhile Char.isDigit with
  | '.' :: t =>
    let fracDigits := t.takeWhile Char.isDigit
    if intDigits.isEmpty && fracDigits.isEmpty then none
    else some ((digitsToNat intDigits : ℚ) + (digitsToNat fracDigits : ℚ) / (10 ^ fracDigits.length))
  | _ => if intDigits.isEmpty then none else some (digitsToNat intDigits)

/-- `parseFloat` as a JavaScript number. -/
def parseFloatNum (s : List Char) : JsNum :=
  match parseFloatQ s with
  | some q => .fin q
  | none => .nan

/-- `parseLabValues`: first match per pattern wins; unmatched analytes are
absent.  Entries are kept in pattern order, matching the insertion order of
the source's `found` object. -/
def parseLabValues (text : String) : List (String × JsNum) :=
  patterns.filterMap fun p =>
    (scanMatch p.alts p.numCls (normalizeText text)).map fun cap =>
      (p.key, parseFloatNum (stripCommas cap))

/-! ## JSON values, `JSON.stringify`-style rendering, `JSON.parse`

JSON values as produced/consumed by `JSON.parse`/`JSON.stringify` in
`extractJsonFromText` and the response handling.  Modelling notes:
* number literals are modelled as (optionally signed) integers — fractional
  and exponent forms are outside the model (none of the verified properties
  depend on them);
* strings support the escape set `\" \\ \/ \n \t \r`; `\uXXXX`, `\b`, `\f`
  and the rejection of raw control characters are not modelled;
* the renderer is canonical: no whitespace, fields in list order. -/

inductive Json where
  | null
  | bool (b : Bool)
  | num (n : Int)
  | str (s : List Char)
  | arr (xs : List Json)
  | obj (fs : List (List Char × Json))
deriving Repr

/-- Decimal digit character for a value `< 10`. -/
def dchar : Nat → Char
  | 0 => '0' | 1 => '1' | 2 => '2' | 3 => '3' | 4 => '4'
  | 5 => '5' | 6 => '6' | 7 => '7' | 8 => '8' | _ => '9'

/-- Digits of a positive natural, most significant first (fuel-driven; fuel
`≥ n` always suffices). -/
def digsAux : Nat → Nat → List Char
  | 0, _ => []
  | fuel + 1, n => if n = 0 then [] else digsAux fuel (n / 10) ++ [dchar (n % 10)]

/-- Decimal rendering of a natural number. -/
def natToDigits (n : Nat) : List Char := if n = 0 then ['0'] else digsAux n n

/-- Decimal rendering of an integer. -/
def intToChars : Int → List Char
  | .ofNat n => natToDigits n
  | .negSucc m => '-' :: natToDigits (m + 1)

/-- String escaping as in `JSON.stringify` (restricted to the modelled set). -/
def escapeChar (c : Char) : List Char :=
  if c = '"' then ['\\', '"']
  else if c = '\\' then ['\\', '\\']
  else if c = '\n' then ['\\', 'n']
  else if c = '\t' then ['\\', 't']
  else if c = '\r' then ['\\', 'r']
  else [c]

/-- Escape a whole string body. -/
def escapeStr (s : List Char) : List Char := (s.map escapeChar).flatten

mutual

/-- Canonical rendering of a JSON value (`JSON.stringify` without spaces). -/
def render : Json → List Char
  | .null => "null".data
  | .bool true => "true".data
  | .bool false => "false".data
  | .num n => intToChars n
  | .str s => '"' :: (escapeStr s ++ ['"'])
  | .arr [] => "[]".data
  | .arr (x :: xs) => '[' :: (renderElems x xs ++ [']'])
  | .obj [] => "{}".data
  | .obj (f :: fs) => '{' :: (renderMembers f fs ++ ['}'])
termination_by v => sizeOf v
decreasing_by all_goals (simp_wf <;> omega)

/-- Comma-joined rendering of array elements. -/
def renderElems : Json → List Json → List Char
  | x, [] => render x
  | x, y :: ys => render x ++ ',' :: renderElems y ys
termination_by x xs => 1 + sizeOf x + sizeOf xs
decreasing_by all_goals (simp_wf <;> omega)

/-- Comma-joined rendering of object members (each member rendered as
`"key":value`). -/
def renderMembers : List Char × Json → List (List Char × Json) → List Char
  | (k, v), [] => '"' :: (escapeStr k ++ '"' :: ':' :: render v)
  | (k, v), g :: gs =>
    ('"' :: (escapeStr k ++ '"' :: ':' :: render v)) ++ ',' :: renderMembers g gs
termination_by f fs => 1 + sizeOf f + sizeOf fs
decreasing_by all_goals (simp_wf <;> omega)

end

/-- One `"key":value` member (abbreviation for the lemmas). -/
def renderMember (k : List Char) (v : Json) : List Char :=
  '"' :: (escapeStr k ++ '"' :: ':' :: render v)

/-- The JSON whitespace characters. -/
def isWs (c : Char) : Bool := c = ' ' || c = '\n' || c = '\t' || c = '\r'

/-- Skip leading whitespace. -/
def skipWs (s : List Char) : List Char := s.dropWhile isWs

/-- Inverse of the modelled escape set. -/
def unescape (c : Char) : Option Char :=
  if c = '"' then some '"'
  else if c = '\\' then some '\\'
  else if c = '/' then some '/'
  else if c = 'n' then some '\n'
  else if c = 't' then some '\t'
  else if c = 'r' then some '\r'
  else none

/-- Parse a string body after the opening quote, up to and including the
closing quote; returns the decoded body and the remaining input. -/
def parseStrBody : List Char → Option (List Char × List Char)
  | [] => none
  | c :: r =>
    if c = '"' then some ([], r)
    else if c = '\\' then
      match r with
      | [] => none
      | e :: r2 =>
        match unescape e with
        | some c2 => (parseStrBody r2).map fun p => (c2 :: p.1, p.2)
        | none => none
    else (parseStrBody r).map fun p => (c :: p.1, p.2)

/-- Parse an integer literal (optional minus, decimal digits). -/
def parseNum : List Char → Option (Int × List Char)
  | [] => none
  | c :: t =>
    if c = '-' then
      let ds := t.takeWhile Char.isDigit
      if ds.isEmpty then none
      else some (-(digitsToNat ds : Int), t.dropWhile Char.isDigit)
    else
      let ds := (c :: t).takeWhile Char.isDigit
      if ds.isEmpty then none
      else some ((digitsToNat ds : Int), (c :: t).dropWhile Char.isDigit)

/-- Strip one expected leading character. -/
def stripHead (c : Char) : List Char → Option (List Char)
  | [] => none
  | a :: r => if a = c then some r else none

mutual

/-- Recursive-descent `JSON.parse` (fuel-driven; every recursive call
decrements the fuel, and each consumes input, so `length + 1` fuel always
suffices). Returns the value and the unconsumed input. -/
def parseVal : Nat → List Char → Option (Json × List Char)
  | 0, _ => none
  | f + 1, s =>
    match matchLit "null".data (skipWs s) with
    | some r => some (.null, r)
    | none =>
    match matchLit "true".data (skipWs s) with
    | some r => some (.bool true, r)
    | none =>
    match matchLit "false".data (skipWs s) with
    | some r => some (.bool false, r)
    | none =>
    match skipWs s with
    | [] => none
    | c :: r =>
      if c = '"' then (parseStrBody r).map fun p => (.str p.1, p.2)
      else if c = '{' then
        match stripHead '}' (skipWs r) with
        | some r2 => some (.obj [], r2)
        | none => (parseMembers f (skipWs r)).map fun p => (.obj p.1, p.2)
      else if c = '[' then
        match stripHead ']' (skipWs r) with
        | some r2 => some (.arr [], r2)
        | none => (parseElems f (skipWs r)).map fun p => (.arr p.1, p.2)
      else (parseNum (c :: r)).map fun p => (.num p.1, p.2)

/-- Parse one or more `"key":value` members and the closing `}`. -/
def parseMembers : Nat → List Char → Option (List (List Char × Json) × List Char)
  | 0, _ => none
  | f + 1, s =>
    match stripHead '"' (skipWs s) with
    | none => none
    | some r =>
      match parseStrBody r with
      | none => none
      | some (k, r1) =>
        match stripHead ':' (skipWs r1) with
        | none => none
        | some r2 =>
          match parseVal f r2 with
          | none => none
          | some (v, r3) =>
            match stripHead ',' (skipWs r3) with
            | some r4 => (parseMembers f r4).map fun p => ((k, v) :: p.1, p.2)
            | none =>
              match stripHead '}' (skipWs r3) with
              | some r4 => some ([(k, v)], r4)
              | none => none

/-- Parse one or more array elements and the closing `]`. -/
def parseElems : Nat → List Char → Option (List Json × List Char)
  | 0, _ => none
  | f + 1, s =>
    match parseVal f s with
    | none => none
    | some (v, r) =>
      match stripHead ',' (skipWs r) with
      | some r2 => (parseElems f r2).map fun p => (v :: p.1, p.2)
      | none =>
        match stripHead ']' (skipWs r) with
        | some r2 => some ([v], r2)
        | none => none

end

/-- `JSON.parse`: a full-input parse (trailing whitespace allowed). -/
def parseJson (s : List Char) : Option Json :=
  match parseVal (s.length + 1) s with
  | some (v, rest) => if (skipWs rest).isEmpty then some v else none
  | none => none

/-! ## `extractJsonFromText` -/

/-- The backtick character. -/
def tickChar : Char := Char.ofNat 96

/-- Backtick test. -/
def isTick (c : Char) : Bool := c = tickChar

/-- Strip a leading triple backtick, returning the remainder. -/
def startsTicks : List Char → Option (List Char)
  | a :: b :: c :: r => if isTick a && isTick b && isTick c then some r else none
  | _ => none

/-- Scan for the closing triple backtick of a lazy `([\s\S]*?)` group:
the text before the first occurrence, and the remainder after it. -/
def findClose : List Char → Option (List Char × List Char)
  | [] => none
  | c :: r =>
    match startsTicks (c :: r) with
    | some rest => some ([], rest)
    | none => (findClose r).map fun p => (c :: p.1, p.2)

/-- One fence match of `/```(?:json)?\n?([\s\S]*?)```/` at the current
position: opening ticks, optional `json` tag, optional newline, then the
lazily captured body up to closing ticks. -/
def matchFenceAt (s : List Char) : Option (List Char × List Char) :=
  match startsTicks s with
  | none => none
  | some r =>
    let r1 := match matchLit "json".data r with
      | some r2 => r2
      | none => r
    findClose ((stripHead '\n' r1).getD r1)

/-- The global fence-stripping replace (keeping each capture), fuel-driven;
fuel `≥ length` always suffices. -/
def stripFencesF : Nat → List Char → List Char
  | 0, s => s
  | _ + 1, [] => []
  | f + 1, c :: rest =>
    match matchFenceAt (c :: rest) with
    | some (cap, after) => cap ++ stripFencesF f after
    | none => c :: stripFencesF f rest

/-- `s.replace(/```(?:json)?\n?([\s\S]*?)```/g, '$1')`. -/
def stripFences (s : List Char) : List Char := stripFencesF s.length s

/-- The span matched by the greedy `/\{[\s\S]*\}/`: from the first `{` to
the last `}` (none when that span does not exist). -/
def braceSpan (s : List Char) : Option (List Char) :=
  match s.dropWhile fun c => c ≠ '{' with
  | [] => none
  | t =>
    match t.reverse.dropWhile fun c => c ≠ '}' with
    | [] => none
    | r => some r.reverse

/-- After a comma: skip `\s*`, then require the closing character,
returning the remainder (the `\s*` of `/,\s*[}\]]/` restricted to the
four common whitespace characters). -/
def afterCommaWs (close : Char) : List Char → Option (List Char)
  | [] => none
  | c :: r => if c = close then some r else if isWs c then afterCommaWs close r else none

/-- The global replace `/,\s*CLOSE/g → CLOSE` (fuel-driven; fuel `≥ length`
always suffices). -/
def cleanupF (close : Char) : Nat → List Char → List Char
  | 0, s => s
  | _ + 1, [] => []
  | f + 1, c :: rest =>
    if c = ',' then
      match afterCommaWs close rest with
      | some r2 => close :: cleanupF close f r2
      | none => ',' :: cleanupF close f rest
    else c :: cleanupF close f rest

/-- `jsonText.replace(/,\s*}/g, '}').replace(/,\s*]/g, ']')`. -/
def cleanTrailingCommas (s : List Char) : List Char :=
  cleanupF ']' (cleanupF '}' s.length s).length (cleanupF '}' s.length s)

/-- `extractJsonFromText` of `services/labAnalyzer.js` (string input; the
`typeof s !== 'string'` guard is handled by the callers in the gateway
model): strip fenced code blocks keeping their bodies, remove inline
backticks, take the first-`{`-to-last-`}` span, `JSON.parse` it, and on
failure retry after removing trailing commas. -/
def extractJsonFromText (s : List Char) : Option Json :=
  match braceSpan ((stripFences s).filter fun c => ¬ isTick c) with
  | none => none
  | some jsonText =>
    match parseJson jsonText with
    | some v => some v
    | none =>
      match parseJson (cleanTrailingCommas jsonText) with
      | some v => some v
      | none => none

/-- The comma-then-close occurrence test used in the cleanup lemmas:
does `,\s*CLOSE` match anywhere in the text? -/
def hasCommaClose (close : Char) : List Char → Bool
  | [] => false
  | c :: r => (c = ',' && (afterCommaWs close r).isSome) || hasCommaClose close r

/-- Shape predicate for the text following a rendered numeral: parsing stops correctly
when the next character is not a digit. -/
def restOk : List Char → Bool
  | [] => true
  | c :: _ => !c.isDigit

/-! ## The inference gateway (`isWatsonConfigured`, `analyzeLabReport`)

The watsonx environment and transport are modelled explicitly: the four
environment variables consulted by the gateway are strings (an unset
variable is the empty string, exactly the falsy case of
`process.env.X || ...`), and the awaited outcome of `callWatsonx(prompt)` —
resolution with a JSON payload, or rejection covering missing-configuration
throws inside the call, network failure and malformed transport behavior —
is an `Except` parameter of the entry point.  An uncaught JavaScript
exception is `Except.error`. -/

/-- The four environment variables read by the gateway. -/
structure Env where
  predictionUrl : String := ""
  deploymentId : String := ""
  baseUrl : String := ""
  apikey : String := ""
deriving DecidableEq, Repr

/-- Truthiness of an environment string (unset/empty is falsy). -/
def envTruthy (s : String) : Bool := !s.isEmpty

/-- `isWatsonConfigured` of `services/labAnalyzer.js`: a full prediction URL
alone suffices, otherwise base URL, deployment id and API key must all be
present. -/
def isWatsonConfigured (env : Env) : Bool :=
  if envTruthy env.predictionUrl then true
  else if envTruthy env.baseUrl && envTruthy env.deploymentId && envTruthy env.apikey then true
  else false

/-- JavaScript truthiness of a JSON value. -/
def jsTruthy : Json → Bool
  | .null => false
  | .bool b => b
  | .num n => n != 0
  | .str s => !s.isEmpty
  | .arr _ => true
  | .obj _ => true

/-- A JavaScript value as handled by the response sniffing: a JSON value or
`undefined` (the result of reading a missing property). -/
inductive JsVal where
  | undefined
  | val (j : Json)
deriving Repr

/-- Truthiness (`undefined` is falsy). -/
def jsvTruthy : JsVal → Bool
  | .undefined => false
  | .val j => jsTruthy j

/-- First binding of a key among object members. -/
def jsonLookup (k : List Char) : List (List Char × Json) → Option Json
  | [] => none
  | (k2, v) :: fs => if k2 = k then some v else jsonLookup k fs

/-- The member of an object value, `none` when absent or when the value is
not an object (reading a named property of a primitive yields `undefined`,
never a throw). -/
def jsonGetField (j : Json) (k : List Char) : Option Json :=
  match j with
  | .obj fs => jsonLookup k fs
  | _ => none

/-- Does a JSON value have a given object member? -/
def jsonMember (k : List Char) (j : Json) : Bool :=
  (jsonGetField j k).isSome

/-- Property read `base.name`: throws a `TypeError` on `null`/`undefined`
bases, yields the member on objects and `undefined` on any other base. -/
def jsvGet (v : JsVal) (k : List Char) : Except String JsVal :=
  match v with
  | .undefined => .error "TypeError: cannot read properties of undefined"
  | .val .null => .error "TypeError: cannot read properties of null"
  | .val (.obj fs) =>
    match jsonLookup k fs with
    | some j => .ok (.val j)
    | none => .ok .undefined
  | .val _ => .ok .undefined

/-- Index read `base[i]`: same throw behavior; element on arrays, character
on strings, numeric-key member on objects, `undefined` otherwise. -/
def jsvIndex (v : JsVal) (i : Nat) : Except String JsVal :=
  match v with
  | .undefined => .error "TypeError: cannot read properties of undefined"
  | .val .null => .error "TypeError: cannot read properties of null"
  | .val (.arr xs) =>
    match xs.get? i with
    | some j => .ok (.val j)
    | none => .ok .undefined
  | .val (.str s) =>
    match s.get? i with
    | some c => .ok (.val (.str [c]))
    | none => .ok .undefined
  | .val (.obj fs) =>
    match jsonLookup (natToDigits i) fs with
    | some j => .ok (.val j)
    | none => .ok .undefined
  | .val _ => .ok .undefined

/-- A known-defined value as JSON (`undefined` cannot reach the uses; it is
mapped to `null` for totality). -/
def jsvalToJson : JsVal → Json
  | .undefined => Json.null
  | .val j => j

/-- Comma join of rendered pieces (`Array.prototype.join(',')`). -/
def joinCommaL : List (List Char) → List Char
  | [] => []
  | [x] => x
  | x :: y :: ys => x ++ ',' :: joinCommaL (y :: ys)

/-- Newline join (`Array.prototype.join('\n')`). -/
def joinNl : List (List Char) → List Char
  | [] => []
  | [x] => x
  | x :: y :: ys => x ++ '\n' :: joinNl (y :: ys)

/-- Template-literal coercion of a JSON value (`String(x)`): primitives via
their `toString`, arrays join their element displays with commas (a `null`
element displays as empty), objects display as `[object Object]`. -/
def jsDisplay : Json → List Char
  | .null => "null".data
  | .bool true => "true".data
  | .bool false => "false".data
  | .num n => intToChars n
  | .str s => s
  | .arr xs => joinCommaL (xs.attach.map fun yp =>
      match yp with
      | ⟨.null, _⟩ => []
      | ⟨y2, hy⟩ => jsDisplay y2)
  | .obj _ => "[object Object]".data
termination_by v => sizeOf v
decreasing_by all_goals (simp_wf <;> (have h2 := List.sizeOf_lt_of_mem hy) <;> omega)

/-- Template-literal coercion of a possibly-undefined value. -/
def jsvDisplay : JsVal → List Char
  | .undefined => "undefined".data
  | .val j => jsDisplay j

/-- The chat-shape test and content read of the response sniffing
(`watsonResp && watsonResp.choices && watsonResp.choices[0] &&
watsonResp.choices[0].message && watsonResp.choices[0].message.content`)
with JavaScript short-circuit evaluation: a falsy link yields `none`, a
property read on a `null`/`undefined` link throws. -/
def chatContent (w : JsVal) : Except String (Option Json) := do
  if jsvTruthy w = false then return none
  let c ← jsvGet w "choices".data
  if jsvTruthy c = false then return none
  let c0 ← jsvIndex c 0
  if jsvTruthy c0 = false then return none
  let m ← jsvGet c0 "message".data
  if jsvTruthy m = false then return none
  let ct ← jsvGet m "content".data
  match ct with
  | .val j => if jsTruthy j then return some j else return none
  | .undefined => return none

/-- `extractJsonFromText` applied to the assistant-content value: the
`!s || typeof s !== 'string'` guard yields `null` on anything but a
nonempty string. -/
def extractJsonFromContent : Json → Option Json
  | .str s => if s.isEmpty then none else extractJsonFromText s
  | _ => none

/-- The `watsonResp.output && watsonResp.output.generations` arm of the
sniffing together with the final `generated = watsonResp` default. -/
def outputBranch (watsonResp : Json) : Except String Json := do
  let o ← jsvGet (.val watsonResp) "output".data
  if jsvTruthy o then
    let g ← jsvGet o "generations".data
    if jsvTruthy g then return jsvalToJson g
    else return watsonResp
  else return watsonResp

/-- The body of the response-normalization `try` block computing
`generated`: chat-style responses go through `extractJsonFromText` (keeping
the raw assistant content when unparsable), otherwise the
`predictions[0].result || predictions[0].output || predictions[0]`,
`output.generations` and identity fallbacks apply in order. -/
def sniffAttempt (watsonResp : Json) : Except String Json := do
  match ← chatContent (.val watsonResp) with
  | some content =>
    match extractJsonFromContent content with
    | some parsed =>
      if jsTruthy parsed then return parsed
      else return Json.obj [("raw_assistant".data, content)]
    | none => return Json.obj [("raw_assistant".data, content)]
  | none =>
    let preds ← jsvGet (.val watsonResp) "predictions".data
    if jsvTruthy preds then
      let p0 ← jsvIndex preds 0
      if jsvTruthy p0 then
        let r ← jsvGet p0 "result".data
        if jsvTruthy r then return jsvalToJson r
        else
          let o ← jsvGet p0 "output".data
          if jsvTruthy o then return jsvalToJson o
          else return jsvalToJson p0
      else outputBranch watsonResp
    else outputBranch watsonResp

/-- The response-normalization `try`/`catch`: any throw while sniffing the
response shape falls back to `generated = watsonResp`. -/
def sniffGenerated (watsonResp : Json) : Json :=
  match sniffAttempt watsonResp with
  | .ok g => g
  | .error _ => watsonResp

/-- Fractional decimal digits of a rational in `[0, 1)` (fuel-bounded;
exact whenever the decimal expansion terminates within the fuel, which
covers every value the analyzer produces). -/
def fracChars : Nat → ℚ → List Char
  | 0, _ => []
  | f + 1, q =>
    if q = 0 then []
    else dchar (q * 10).floor.toNat :: fracChars f (q * 10 - ((q * 10).floor.toNat : ℚ))

/-- Decimal rendering of a rational (template-literal coercion of a finite
JavaScript number; exact for terminating decimals). -/
def qToChars (q : ℚ) : List Char :=
  (if q < 0 then ['-'] else []) ++
    natToDigits |q|.floor.toNat ++
    (let fr := fracChars 40 (|q| - (|q|.floor.toNat : ℚ))
     if fr.isEmpty then [] else '.' :: fr)

/-- Template-literal coercion of a JavaScript number. -/
def numToChars : JsNum → List Char
  | .nan => "NaN".data
  | .posInf => "Infinity".data
  | .negInf => "-Infinity".data
  | .fin q => qToChars q

/-- Template-literal coercion of a possibly-undefined range bound. -/
def optBoundChars : Option ℚ → List Char
  | some q => qToChars q
  | none => "undefined".data

/-- `createWatsonPrompt`, reduced to its exceptional behavior (its string
value is consumed only by the abstracted transport): for every assessment
the prompt builder reads `r.normalRange.low`, which throws when the
assessment was built for an unconfigured key — that object shape (marked by
`note` in this model) carries no `normalRange` field, so the read is a
property of `undefined`. -/
def createWatsonPrompt (assessments : List Assessment) : Except String Unit :=
  if assessments.all fun a => a.note.isNone then .ok ()
  else .error "TypeError: cannot read properties of undefined"

/-- One local-fallback explanation string. -/
def localExplanation (a : Assessment) : List Char :=
  if a.status = "normal" then
    "Your ".data ++ a.key.data ++ " is within the normal range (".data
      ++ optBoundChars a.normalRange.1 ++ "-".data ++ optBoundChars a.normalRange.2
      ++ " ".data ++ a.unit.data ++ ").".data
  else
    "Your ".data ++ a.key.data ++ " is ".data ++ a.status.data ++ " (value ".data
      ++ numToChars a.value ++ " ".data ++ a.unit.data ++ "). Severity: ".data
      ++ a.severity.data ++ ". We recommend medical follow-up.".data

/-- The local-fallback `result` object: one templated explanation per
assessment, an urgent action item per severe assessment, one generic
question. -/
def localFallbackResult (assessments : List Assessment) : Json :=
  Json.obj [
    ("explanations".data, Json.arr (assessments.map fun a =>
      Json.obj [("key".data, Json.str a.key.data),
                ("explanation".data, Json.str (localExplanation a)),
                ("severity".data, Json.str a.severity.data)])),
    ("action_items".data, Json.arr ((assessments.filter fun a => a.severity = "severe").map
      fun a => Json.str ("URGENT: see a doctor for ".data ++ a.key.data))),
    ("questions".data, Json.arr [Json.str "Please consult a doctor for next steps.".data])]

/-- The record returned by `analyzeLabReport`. -/
structure AnalyzeOut where
  assessments : List Assessment
  result : Json
  rawWatson : Json
deriving Repr

/-- `analyzeLabReport` of `services/labAnalyzer.js`.  `upstream` is the
awaited outcome of `callWatsonx(prompt)` (see the section comment); the
`try`/`catch` around the call turns a rejection into the local fallback. -/
def analyzeLabReport (env : Env) (upstream : Except String Json)
    (rawText : String) (patientMeta : PatientMeta) : Except String AnalyzeOut := do
  let assessments := (parseLabValues rawText).map fun p => assessValue p.1 p.2 patientMeta
  let _ ← createWatsonPrompt assessments
  if !isWatsonConfigured env then
    return { assessments := assessments
             result := localFallbackResult assessments
             rawWatson := Json.null }
  else
    match upstream with
    | .error _ =>
      return { assessments := assessments
               result := localFallbackResult assessments
               rawWatson := Json.null }
    | .ok watsonResp =>
      return { assessments := assessments
               result := sniffGenerated watsonResp
               rawWatson := watsonResp }

/-! ## The lab-insights merger (`mergeLabInsightsIntoSections` of
`reportAnalyzer.js`)

The narrative object is a record of the three section strings together with
the attached lab analysis; the source mutates the record, modelled as
returning the updated record.  A thrown `TypeError` (possible when a
malformed explanation entry is `null` or carries a truthy non-string `key`)
is `Except.error`. -/

/-- `String.prototype.trim` (restricted to the four common whitespace
characters, which cover every string the merger builds). -/
def trimChars (s : List Char) : List Char :=
  ((s.dropWhile isWs).reverse.dropWhile isWs).reverse

/-- Does the second list start with the first? -/
def leadsWith : List Char → List Char → Bool
  | [], _ => true
  | _ :: _, [] => false
  | a :: as, b :: bs => a = b && leadsWith as bs

/-- `String.prototype.includes`: does `needle` occur as a contiguous
substring? -/
def containsSub (needle : List Char) : List Char → Bool
  | [] => needle.isEmpty
  | c :: r => leadsWith needle (c :: r) || containsSub needle r

/-- `/No text could be extracted/i.test(s)`. -/
def testNoTextExtracted (s : List Char) : Bool :=
  containsSub "no text could be extracted".data (s.map Char.toLower)

/-- `Array.isArray(x) ? x : []` on a possibly-missing member. -/
def asArray : Option Json → List Json
  | some (.arr xs) => xs
  | _ => []

/-- One explanation bullet
(`• ${label}${severity}: ${detail}`, trimmed): the label upper-cases the
underscore-split key when `exp.key` is truthy (a truthy non-string key has
no `replace` method and throws), severity and detail are template-coerced,
`detail` falls back from `explanation` to `raw_assistant` to the empty
string. -/
def expBullet (exp : Json) : Except String (List Char) := do
  let k ← jsvGet (.val exp) "key".data
  let label ← (match k with
    | .val (.str s) =>
      if s.isEmpty then pure "LAB RESULT".data
      else pure ((s.map fun c => if c = '_' then ' ' else c).map Char.toUpper)
    | .val j =>
      if jsTruthy j then Except.error "TypeError: exp.key.replace is not a function"
      else pure "LAB RESULT".data
    | .undefined => pure "LAB RESULT".data)
  let sv ← jsvGet (.val exp) "severity".data
  let severity := if jsvTruthy sv then " (".data ++ jsvDisplay sv ++ ")".data else []
  let ex ← jsvGet (.val exp) "explanation".data
  let ra ← jsvGet (.val exp) "raw_assistant".data
  let detail := if jsvTruthy ex then jsvDisplay ex
                else if jsvTruthy ra then jsvDisplay ra else []
  return trimChars ("• ".data ++ label ++ severity ++ ": ".data ++ detail)

/-- The narrative record operated on by the merger (only the fields the
merger reads and writes are modelled). -/
structure Analysis where
  summary : List Char
  findings : List Char
  recommendations : List Char
  labAnalysis : Option AnalyzeOut
deriving Repr

/-- `mergeLabInsightsIntoSections` of `reportAnalyzer.js`: with a truthy
attached lab result, append the explanation bullets to the summary (guarded
by a `Watson Lab Highlights` substring check) and to the findings (fresh
`AI-Powered Lab Analysis` section on empty/unextractable findings, else
guarded by a `Watson Lab` substring check), and the action items to the
recommendations (guarded by an `AI Lab Follow-ups` substring check). -/
def mergeLabInsightsIntoSections (analysis : Analysis) : Except String Analysis := do
  match analysis.labAnalysis with
  | none => return analysis
  | some la =>
    if jsTruthy la.result = false then return analysis
    else
      let result := la.result
      let explanations := asArray (jsonGetField result "explanations".data)
      let actionItems := asArray (jsonGetField result "action_items".data)
      let a1 ← (do
        if explanations.length > 0 then
          let bullets ← (explanations.take 3).mapM expBullet
          let explanationBullets := joinNl bullets
          let s1 :=
            if !analysis.summary.isEmpty &&
               !containsSub "Watson Lab Highlights".data analysis.summary then
              analysis.summary ++ "\n\n🔬 **Watson AI Lab Analysis**\n".data
                ++ explanationBullets
            else analysis.summary
          let f1 :=
            if analysis.findings.isEmpty || testNoTextExtracted analysis.findings then
              let pre := if !analysis.findings.isEmpty then
                  analysis.findings ++ "\n\n".data else []
              trimChars (pre ++ "**AI-Powered Lab Analysis:**\n".data
                ++ explanationBullets)
            else if !containsSub "Watson Lab".data analysis.findings then
              analysis.findings ++ "\n\n**Watson AI Insights:**\n".data
                ++ explanationBullets
            else analysis.findings
          return { analysis with summary := s1, findings := f1 }
        else return analysis)
      if actionItems.length > 0 && !a1.recommendations.isEmpty &&
         !containsSub "AI Lab Follow-ups".data a1.recommendations then
        let actionList := joinNl (actionItems.map fun item => "• ".data ++ jsDisplay item)
        let r1 := a1.recommendations ++ "\n\n🤖 **AI-Recommended Actions**\n".data ++ actionList
        return { a1 with recommendations := r1 }
      else return a1

/-- A narrative with all three sections present and a lab analysis attached
whose result carries one explanation (no severity/detail members, so the
bullet is `• HEMOGLOBIN:`). -/
def sampleAnalysis : Analysis :=
  { summary := "Report summary.".data
    findings := "Stable vitals.".data
    recommendations := "Rest well.".data
    labAnalysis := some
      { assessments := []
        result := Json.obj
          [("explanations".data,
            Json.arr [Json.obj [("key".data, Json.str "hemoglobin".data)]])]
        rawWatson := Json.null } }

/-! ## Facts about the threshold table and the classification -/

theorem labThresholds_cases (key : String) (conf : LabThreshold)
    (h : labThresholds key = some conf) :
    conf = hemoglobinThreshold ∨ conf = plateletThreshold ∨ conf = glucoseFastingThreshold := by
  unfold labThresholds at h
  split at h
  · simp_all
  · split at h
    · simp_all
    · split at h
      · simp_all
      · simp_all

/-- Every lower bound the table can resolve to is positive. -/
theorem resolvedLow_pos (key : String) (conf : LabThreshold) (meta : PatientMeta) (l : ℚ)
    (hc : labThresholds key = some conf) (hl : (resolvedBounds conf meta).1 = some l) :
    0 < l := by
  rcases labThresholds_cases key conf hc with h | h | h <;> subst h <;>
    by_cases hm : lowerStr meta.sex = "male" <;>
    by_cases hf : lowerStr meta.sex = "female" <;>
    simp [resolvedBounds, sexOverride, hemoglobinThreshold, plateletThreshold,
      glucoseFastingThreshold, hm, hf] at hl <;>
    (subst hl; norm_num)

/-- Every upper bound the table can resolve to is positive. -/
theorem resolvedHigh_pos (key : String) (conf : LabThreshold) (meta : PatientMeta) (h : ℚ)
    (hc : labThresholds key = some conf) (hh : (resolvedBounds conf meta).2 = some h) :
    0 < h := by
  rcases labThresholds_cases key conf hc with hcs | hcs | hcs <;> subst hcs <;>
    by_cases hm : lowerStr meta.sex = "male" <;>
    by_cases hf : lowerStr meta.sex = "female" <;>
    simp [resolvedBounds, sexOverride, hemoglobinThreshold, plateletThreshold,
      glucoseFastingThreshold, hm, hf] at hh <;>
    (subst hh; norm_num)

/-- The classification can only produce these seven (severity, status) pairs. -/
theorem classifyPair_mem (d : SeverityDefaults) (conf : LabThreshold)
    (nl nh : Option ℚ) (value : JsNum) :
    classifyPair d conf nl nh value ∈
      ([("severe", "low"), ("moderate", "low"), ("mild", "low"), ("normal", "normal"),
        ("severe", "high"), ("moderate", "high"), ("mild", "high")] :
        List (String × String)) := by
  rcases nl with _ | l <;> rcases nh with _ | h <;>
    simp only [classifyPair] <;>
    split_ifs <;> simp

/-- Character of the lower-is-bad branch for a positive lower bound:
status `low`, severity by the ratio `value / normalLow` against the severe
and moderate cutoffs (the `mild` cutoff is not consulted; the mild class is
bounded above by the hard ratio 1). -/
theorem classifyPair_low (d : SeverityDefaults) (conf : LabThreshold) (l h v : ℚ)
    (hl0 : 0 < l) (hv : v < l) :
    classifyPair d conf (some l) (some h) (.fin v) =
      ((if v / l < conf.severity.severe.getD d.lowSevere then "severe"
        else if v / l < conf.severity.moderate.getD d.lowModerate then "moderate"
        else "mild"), "low") := by
  have hne : l ≠ 0 := ne_of_gt hl0
  have hone : v / l < 1 := (div_lt_one hl0).mpr hv
  by_cases h1 : v / l < conf.severity.severe.getD d.lowSevere <;>
  by_cases h2 : v / l < conf.severity.moderate.getD d.lowModerate <;>
  simp [classifyPair, jsLt, jsDiv, hne, hv, h1, h2, hone]

/-- Character of the higher-is-bad branch for positive bounds and an
in-or-above-low value exceeding the upper bound: status `high`, severity by
the ratio `value / normalHigh` against the severe and moderate cutoffs. -/
theorem classifyPair_high (d : SeverityDefaults) (conf : LabThreshold) (l h v : ℚ)
    (hl0 : 0 < l) (hh0 : 0 < h) (hlv : l ≤ v) (hv : h < v) :
    classifyPair d conf (some l) (some h) (.fin v) =
      ((if conf.severity.severe.getD d.highSevere < v / h then "severe"
        else if conf.severity.moderate.getD d.highModerate < v / h then "moderate"
        else "mild"), "high") := by
  have hne : l ≠ 0 := ne_of_gt hl0
  have hne2 : h ≠ 0 := ne_of_gt hh0
  have hnlt : ¬ v < l := not_lt.mpr hlv
  by_cases h1 : conf.severity.severe.getD d.highSevere < v / h <;>
  by_cases h2 : conf.severity.moderate.getD d.highModerate < v / h <;>
  simp [classifyPair, jsLt, jsGt, jsDiv, hne, hne2, hnlt, hv, h1, h2]

/-- A value between the two resolved bounds is always classified normal
(including the degenerate `normalLow = 0` case, where the falsy bound turns
into an `Infinity` comparison and the ratio into `NaN` or `Infinity`). -/
theorem classifyPair_inRange (d : SeverityDefaults) (conf : LabThreshold) (l h v : ℚ)
    (hlv : l ≤ v) (hvh : v ≤ h) :
    classifyPair d conf (some l) (some h) (.fin v) = ("normal", "normal") := by
  have hnh : ¬ h < v := not_lt.mpr hvh
  by_cases hl0 : l = 0
  · subst hl0
    by_cases hv0 : v = 0
    · subst hv0
      simp [classifyPair, jsLt, jsDiv]
    · have hvpos : 0 < v := lt_of_le_of_ne hlv (Ne.symm hv0)
      simp [classifyPair, jsLt, jsGt, jsDiv, hv0, not_lt.mpr (le_of_lt hvpos), hnh]
  · have hnlt : ¬ v < l := not_lt.mpr hlv
    simp [classifyPair, jsLt, jsGt, jsDiv, hl0, hnlt, hnh]

/-! ## Claims C4, C5, C6, C10 -/

/-- **C4.** For every analyte key whose (sex-resolved) reference range defines
both bounds `L` and `H`, and every value `v` with `L ≤ v ≤ H`,
`assessValue key v meta` returns severity `normal` and status `normal`. -/
theorem C4_in_range_is_normal (key : String) (conf : LabThreshold)
    (meta : PatientMeta) (v l h : ℚ)
    (hconf : labThresholds key = some conf)
    (hl : (resolvedBounds conf meta).1 = some l)
    (hh : (resolvedBounds conf meta).2 = some h)
    (hlv : l ≤ v) (hvh : v ≤ h) :
    (assessValue key (.fin v) meta).severity = "normal" ∧
    (assessValue key (.fin v) meta).status = "normal" := by
  unfold assessValue assessValueD
  simp [hconf, hl, hh, classifyPair_inRange _ _ _ _ _ hlv hvh]

/-- Witness for C4: hemoglobin at 14 g/dL for a male patient is normal. -/
theorem C4_in_range_is_normal_witness :
    (assessValue "hemoglobin" (.fin 14) { sex := "male" }).severity = "normal" ∧
    (assessValue "hemoglobin" (.fin 14) { sex := "male" }).status = "normal" :=
  C4_in_range_is_normal "hemoglobin" hemoglobinThreshold { sex := "male" } 14 13.5 17.5
    rfl rfl rfl (by norm_num) (by norm_num)

/-- **C5.** For a configured lower-is-bad analyte whose cutoffs satisfy
`severe ≤ moderate ≤ mild ≤ 1`, badness is monotone: strictly lower values
below the resolved `normalLow` are assessed at least as bad. -/
theorem C5_lower_monotone (key : String) (conf : LabThreshold) (meta : PatientMeta)
    (v1 v2 l h s mo mi : ℚ)
    (hconf : labThresholds key = some conf)
    (hl : (resolvedBounds conf meta).1 = some l)
    (hh : (resolvedBounds conf meta).2 = some h)
    (hs : conf.severity.severe = some s)
    (hmo : conf.severity.moderate = some mo)
    (hmi : conf.severity.mild = some mi)
    (hsm : s ≤ mo) (hmm : mo ≤ mi) (hm1 : mi ≤ 1)
    (h21 : v2 < v1) (h1l : v1 < l) :
    badness (assessValue key (.fin v1) meta).severity ≤
      badness (assessValue key (.fin v2) meta).severity := by
  have hl0 : 0 < l := resolvedLow_pos key conf meta l hconf hl
  have h2l : v2 < l := lt_trans h21 h1l
  have hp : v2 / l < v1 / l := by gcongr
  unfold assessValue assessValueD
  simp only [hconf, hl, hh, classifyPair_low _ _ _ _ _ hl0 h1l,
    classifyPair_low _ _ _ _ _ hl0 h2l, hs, hmo, Option.getD_some]
  by_cases a1 : v1 / l < s <;> by_cases a2 : v1 / l < mo <;>
  by_cases b1 : v2 / l < s <;> by_cases b2 : v2 / l < mo <;>
  simp only [a1, a2, b1, b2, if_true, if_false] <;>
  first
    | decide
    | (exfalso; linarith)

/-- Witness for C5: male hemoglobin, 13 g/dL is mild, 9 g/dL is severe. -/
theorem C5_lower_monotone_witness :
    badness (assessValue "hemoglobin" (.fin 13) { sex := "male" }).severity ≤
      badness (assessValue "hemoglobin" (.fin 9) { sex := "male" }).severity :=
  C5_lower_monotone "hemoglobin" hemoglobinThreshold { sex := "male" }
    13 9 13.5 17.5 0.7 0.85 0.95
    rfl rfl rfl rfl rfl rfl
    (by norm_num) (by norm_num) (by norm_num) (by norm_num) (by norm_num)

/-- **C6.** For configured analytes the out-of-range severity class is
determined exactly by the analyte's own configured ratio cutoffs: the result
is independent of the hard-coded global fallback constants, below-range
values are classified by `value / normalLow` against the configured cutoffs
in descending order (with ratio ≥ 1 mapping to normal, subsumed in the
in-range clause), and above-range values by `value / normalHigh`. -/
theorem C6_cutoffs_are_per_analyte (d : SeverityDefaults) (key : String)
    (conf : LabThreshold) (meta : PatientMeta) (v l h s mo : ℚ)
    (hconf : labThresholds key = some conf)
    (hs : conf.severity.severe = some s)
    (hmo : conf.severity.moderate = some mo)
    (hl : (resolvedBounds conf meta).1 = some l)
    (hh : (resolvedBounds conf meta).2 = some h) :
    (assessValueD d key (.fin v) meta = assessValue key (.fin v) meta) ∧
    (v < l →
      (assessValue key (.fin v) meta).severity =
        (if v / l < s then "severe" else if v / l < mo then "moderate" else "mild")) ∧
    (l ≤ v → v ≤ h → (assessValue key (.fin v) meta).severity = "normal") ∧
    (h < v → l ≤ v →
      (assessValue key (.fin v) meta).severity =
        (if s < v / h then "severe" else if mo < v / h then "moderate" else "mild")) := by
  have hl0 : 0 < l := resolvedLow_pos key conf meta l hconf hl
  have hh0 : 0 < h := resolvedHigh_pos key conf meta h hconf hh
  refine ⟨?_, ?_, ?_, ?_⟩
  · unfold assessValue assessValueD
    simp only [hconf]
    by_cases hv : v < l
    · simp only [hl, hh, classifyPair_low _ _ _ _ _ hl0 hv, hs, hmo, Option.getD_some]
    · by_cases hvh : h < v
      · simp only [hl, hh,
          classifyPair_high _ _ _ _ _ hl0 hh0 (not_lt.mp hv) hvh, hs, hmo, Option.getD_some]
      · simp only [hl, hh,
          classifyPair_inRange _ _ _ _ _ (not_lt.mp hv) (not_lt.mp hvh)]
  · intro hv
    unfold assessValue assessValueD
    simp only [hconf, hl, hh, classifyPair_low _ _ _ _ _ hl0 hv, hs, hmo, Option.getD_some]
  · intro h1 h2
    unfold assessValue assessValueD
    simp only [hconf, hl, hh, classifyPair_inRange _ _ _ _ _ h1 h2]
  · intro hv hlv
    unfold assessValue assessValueD
    simp only [hconf, hl, hh, classifyPair_high _ _ _ _ _ hl0 hh0 hlv hv, hs, hmo,
      Option.getD_some]

/-- Witness for C6 at glucose 150 mg/dL (above range, defaults perturbed). -/
theorem C6_cutoffs_are_per_analyte_witness :
    (assessValueD ⟨0, 0, 0, 0⟩ "glucose_fasting" (.fin 150) {} =
      assessValue "glucose_fasting" (.fin 150) {}) ∧
    ((150 : ℚ) < 70 →
      (assessValue "glucose_fasting" (.fin 150) {}).severity =
        (if (150 : ℚ) / 70 < 1.5 then "severe"
         else if (150 : ℚ) / 70 < 1.25 then "moderate" else "mild")) ∧
    ((70 : ℚ) ≤ 150 → (150 : ℚ) ≤ 99 →
      (assessValue "glucose_fasting" (.fin 150) {}).severity = "normal") ∧
    ((99 : ℚ) < 150 → (70 : ℚ) ≤ 150 →
      (assessValue "glucose_fasting" (.fin 150) {}).severity =
        (if (1.5 : ℚ) < 150 / 99 then "severe"
         else if (1.25 : ℚ) < 150 / 99 then "moderate" else "mild")) :=
  C6_cutoffs_are_per_analyte ⟨0, 0, 0, 0⟩ "glucose_fasting" glucoseFastingThreshold {}
    150 70 99 1.5 1.25 rfl rfl rfl rfl rfl

/-- **C10.** Status and severity are always coupled: severity `normal` iff
status `normal`; severity mild/moderate/severe iff status `low` or `high`;
status `unknown` iff severity `unknown`, iff the key has no threshold entry. -/
theorem C10_status_severity_coupling (key : String) (value : JsNum) (meta : PatientMeta) :
    ((assessValue key value meta).severity = "normal" ↔
      (assessValue key value meta).status = "normal") ∧
    (((assessValue key value meta).severity = "mild" ∨
      (assessValue key value meta).severity = "moderate" ∨
      (assessValue key value meta).severity = "severe") ↔
      ((assessValue key value meta).status = "low" ∨
       (assessValue key value meta).status = "high")) ∧
    ((assessValue key value meta).status = "unknown" ↔
      (assessValue key value meta).severity = "unknown") ∧
    ((assessValue key value meta).severity = "unknown" ↔ labThresholds key = none) := by
  cases hconf : labThresholds key with
  | none =>
    unfold assessValue assessValueD
    simp [hconf]
  | some conf =>
    unfold assessValue assessValueD
    simp only [hconf]
    have hmem := classifyPair_mem builtinDefaults conf
      (resolvedBounds conf meta).1 (resolvedBounds conf meta).2 value
    generalize hcp : classifyPair builtinDefaults conf
      (resolvedBounds conf meta).1 (resolvedBounds conf meta).2 value = p at hmem
    fin_cases hmem <;> simp


theorem takeWhile_append_all (p : Char → Bool) (xs ys : List Char)
    (h : ∀ c ∈ xs, p c) : (xs ++ ys).takeWhile p = xs ++ ys.takeWhile p := by
  induction xs with
  | nil => simp
  | cons a as ih =>
    simp only [List.cons_append, List.takeWhile_cons]
    rw [h a (by simp), ih fun c hc => h c (by simp [hc])]
    simp

theorem dropWhile_append_all (p : Char → Bool) (xs ys : List Char)
    (h : ∀ c ∈ xs, p c) : (xs ++ ys).dropWhile p = ys.dropWhile p := by
  induction xs with
  | nil => simp
  | cons a as ih =>
    simp only [List.cons_append, List.dropWhile_cons]
    rw [h a (by simp)]
    simpa using ih fun c hc => h c (by simp [hc])

theorem matchNumeral_some (cls : Char → Bool) (s cap : List Char)
    (h : matchNumeral cls s = some cap) :
    cap = s.takeWhile cls ++ fracTail (s.dropWhile cls) ∧
      (s.takeWhile cls).isEmpty = false := by
  unfold matchNumeral at h
  by_cases he : (s.takeWhile cls).isEmpty <;> simp [he] at h ⊢
  exact h.symm

theorem fracTail_shape (t : List Char) :
    fracTail t = [] ∨ ∃ u, fracTail t = '.' :: u ∧ ∀ c ∈ u, c.isDigit := by
  unfold fracTail
  split
  · rename_i c rest
    by_cases hc : c.isDigit
    · right
      refine ⟨c :: rest.takeWhile Char.isDigit, by simp [hc], ?_⟩
      intro x hx
      rcases List.mem_cons.mp hx with h | h
      · subst h; exact hc
      · exact List.mem_takeWhile_imp h
    · left; simp [hc]
  · left; rfl

theorem parseFloatQ_run_frac (run frac : List Char)
    (hne : run.isEmpty = false) (hall : ∀ c ∈ run, c.isDigit)
    (hfrac : frac = [] ∨ ∃ u, frac = '.' :: u) :
    (parseFloatQ (run ++ frac)).isSome := by
  have hdot : ('.' : Char).isDigit = false := by decide
  rcases hfrac with h | ⟨u, h⟩ <;> subst h
  · have h1 : parseFloatQ (run ++ []) = some (digitsToNat run) := by
      unfold parseFloatQ
      rw [takeWhile_append_all Char.isDigit run [] hall,
        dropWhile_append_all Char.isDigit run [] hall]
      simp [hne]
    rw [h1]; rfl
  · have h1 : ((('.' :: u).takeWhile Char.isDigit) : List Char) = [] := by
      simp [List.takeWhile_cons, hdot]
    have h2 : (('.' :: u).dropWhile Char.isDigit) = '.' :: u := by
      simp [List.dropWhile_cons, hdot]
    unfold parseFloatQ
    rw [takeWhile_append_all Char.isDigit run ('.' :: u) hall,
      dropWhile_append_all Char.isDigit run ('.' :: u) hall, h1, h2]
    simp [hne]

theorem matchNumeral_digitCls_not_nan (t cap : List Char)
    (h : matchNumeral digitCls t = some cap) :
    parseFloatNum (stripCommas cap) ≠ .nan := by
  obtain ⟨hcap, hne⟩ := matchNumeral_some _ _ _ h
  have hall : ∀ c ∈ t.takeWhile digitCls, c.isDigit := fun c hc => List.mem_takeWhile_imp hc
  have hcomma : (',' : Char).isDigit = false := by decide
  have hnc : stripCommas cap = cap := by
    rw [hcap]
    apply List.filter_eq_self.mpr
    intro c hc
    simp only [ne_eq, decide_eq_true_eq]
    intro hcc
    subst hcc
    rcases List.mem_append.mp hc with h' | h'
    · rw [hall _ h'] at hcomma; cases hcomma
    · rcases fracTail_shape (t.dropWhile digitCls) with hf | ⟨u, hf, hu⟩
      · rw [hf] at h'; cases h'
      · rw [hf] at h'
        rcases List.mem_cons.mp h' with h'' | h''
        · cases h''
        · rw [hu _ h''] at hcomma; cases hcomma
  have hsome : (parseFloatQ (stripCommas cap)).isSome := by
    rw [hnc, hcap]
    exact parseFloatQ_run_frac _ _ hne hall
      (by rcases fracTail_shape (t.dropWhile digitCls) with hf | ⟨u, hf, _⟩
          · exact Or.inl hf
          · exact Or.inr ⟨u, hf⟩)
  unfold parseFloatNum
  cases hq : parseFloatQ (stripCommas cap) with
  | some q => simp
  | none => rw [hq] at hsome; cases hsome

theorem tryGapAux_inv (cls : Char → Bool) (s : List Char) (k : Nat) (cap : List Char)
    (h : tryGapAux cls s k = some cap) :
    ∃ t, matchNumeral cls t = some cap := by
  induction k with
  | zero => exact ⟨s, h⟩
  | succ k ih =>
    unfold tryGapAux at h
    cases hm : matchNumeral cls (s.drop (k + 1)) with
    | some c => rw [hm] at h; cases h; exact ⟨_, hm⟩
    | none => rw [hm] at h; exact ih h

theorem tryAlts_inv (alts : List (List Char)) (cls : Char → Bool) (s cap : List Char)
    (h : tryAlts alts cls s = some cap) :
    ∃ t, matchNumeral cls t = some cap := by
  obtain ⟨a, _, hf⟩ := List.exists_of_findSome?_eq_some h
  cases hml : matchLit a s with
  | none => rw [hml] at hf; cases hf
  | some rest =>
    rw [hml] at hf
    exact tryGapAux_inv cls rest _ cap hf

theorem scanMatch_inv (alts : List (List Char)) (cls : Char → Bool) (s cap : List Char)
    (h : scanMatch alts cls s = some cap) :
    ∃ t, matchNumeral cls t = some cap := by
  induction s with
  | nil => simp [scanMatch] at h
  | cons c rest ih =>
    unfold scanMatch at h
    cases hta : tryAlts alts cls (c :: rest) with
    | some cap2 => rw [hta] at h; cases h; exact tryAlts_inv _ _ _ _ hta
    | none => rw [hta] at h; exact ih h

theorem scanMatch_digitCls_not_nan (alts : List (List Char)) (s cap : List Char)
    (h : scanMatch alts digitCls s = some cap) :
    parseFloatNum (stripCommas cap) ≠ .nan := by
  obtain ⟨t, ht⟩ := scanMatch_inv _ _ _ _ h
  exact matchNumeral_digitCls_not_nan _ _ ht

/-- **C9 (amended).** `parseLabValues` yields at most one entry per analyte
(distinct keys), an analyte is absent from the output exactly when its
pattern has no match, and no entry is null; an entry can be `NaN` only for
the platelet pattern (whose numeral class admits digit-free, comma-only
captures), never for hemoglobin or glucose. -/
theorem C9_extraction_shape (text : String) :
    ((parseLabValues text).map Prod.fst).Nodup ∧
    (∀ p ∈ patterns,
      (¬ p.key ∈ (parseLabValues text).map Prod.fst ↔
        scanMatch p.alts p.numCls (normalizeText text) = none)) ∧
    (∀ kv ∈ parseLabValues text, kv.2 = JsNum.nan → kv.1 = "platelet") := by
  have e1 : hemoglobinPattern.key = "hemoglobin" := rfl
  have e2 : plateletPattern.key = "platelet" := rfl
  have e3 : glucoseFastingPattern.key = "glucose_fasting" := rfl
  rcases h1 : scanMatch hemoglobinPattern.alts hemoglobinPattern.numCls
      (normalizeText text) with _ | c1 <;>
  rcases h2 : scanMatch plateletPattern.alts plateletPattern.numCls
      (normalizeText text) with _ | c2 <;>
  rcases h3 : scanMatch glucoseFastingPattern.alts glucoseFastingPattern.numCls
      (normalizeText text) with _ | c3 <;>
  simp only [parseLabValues, patterns, List.filterMap_cons, List.filterMap_nil, h1, h2, h3,
    Option.map_some, Option.map_some', Option.map_none, Option.map_none'] <;>
  refine ⟨by simp [e1, e2, e3], ?_, ?_⟩
  all_goals
    intro p hp
    fin_cases hp <;>
      simp [e1, e2, e3, h1, h2, h3] <;>
      first
      | exact scanMatch_digitCls_not_nan _ _ _ h1
      | exact scanMatch_digitCls_not_nan _ _ _ h3


/-- Counterexample to C9 as stated: on input `"platelet ,"` the platelet
regex backtracks its gap and captures the bare comma, `parseFloat('')`
yields `NaN`, and the output carries a `NaN` entry. -/
theorem C9_nan_counterexample :
    parseLabValues "platelet ," = [("platelet", JsNum.nan)] := by decide



/-- Witness for C9 at the concrete input `"platelet ,"`. -/
theorem C9_extraction_shape_witness :
    ("platelet", JsNum.nan).1 = "platelet" ∧
    (¬ "hemoglobin" ∈ (parseLabValues "platelet ,").map Prod.fst ↔
      scanMatch hemoglobinPattern.alts hemoglobinPattern.numCls
        (normalizeText "platelet ,") = none) :=
  ⟨(C9_extraction_shape "platelet ,").2.2 ("platelet", JsNum.nan) (by decide) (by decide),
   (C9_extraction_shape "platelet ,").2.1 hemoglobinPattern (by simp [patterns])⟩

/-! ## Claim C8: JSON extraction round trip -/

theorem dchar_isDigit (m : Nat) : (dchar m).isDigit = true := by
  unfold dchar; split <;> decide

theorem digitVal_dchar (m : Nat) (h : m < 10) : digitVal (dchar m) = m := by
  interval_cases m <;> decide

theorem digitsToNat_append_one (ds : List Char) (c : Char) :
    digitsToNat (ds ++ [c]) = digitsToNat ds * 10 + digitVal c := by
  simp [digitsToNat, List.foldl_append]

theorem digsAux_spec (fuel : Nat) : ∀ n, n ≤ fuel →
    digitsToNat (digsAux fuel n) = n ∧
    (∀ c ∈ digsAux fuel n, c.isDigit) ∧
    (n ≠ 0 → digsAux fuel n ≠ []) := by
  induction fuel with
  | zero =>
    intro n hn
    interval_cases n
    refine ⟨by simp [digsAux, digitsToNat], by simp [digsAux], by simp⟩
  | succ f ih =>
    intro n hn
    by_cases h0 : n = 0
    · subst h0
      refine ⟨by simp [digsAux, digitsToNat], by simp [digsAux], by simp⟩
    · have hdiv : n / 10 ≤ f := by
        have : n / 10 < n := Nat.div_lt_self (Nat.pos_of_ne_zero h0) (by norm_num)
        omega
      obtain ⟨ih1, ih2, _⟩ := ih (n / 10) hdiv
      have hmod : n % 10 < 10 := Nat.mod_lt _ (by norm_num)
      refine ⟨?_, ?_, ?_⟩
      · simp only [digsAux, h0, if_false]
        rw [digitsToNat_append_one, ih1, digitVal_dchar _ hmod]
        omega
      · simp only [digsAux, h0, if_false]
        intro c hc
        rcases List.mem_append.mp hc with h | h
        · exact ih2 c h
        · rcases List.mem_singleton.mp h with rfl
          exact dchar_isDigit _
      · intro _
        simp [digsAux, h0]

theorem natToDigits_spec (n : Nat) :
    digitsToNat (natToDigits n) = n ∧
    (∀ c ∈ natToDigits n, c.isDigit) ∧ natToDigits n ≠ [] := by
  unfold natToDigits
  by_cases h0 : n = 0
  · subst h0
    refine ⟨by simp [digitsToNat, digitVal], ?_, by simp⟩
    simp only [if_true]
    intro c hc
    rcases List.mem_singleton.mp hc with rfl
    decide
  · obtain ⟨h1, h2, h3⟩ := digsAux_spec n n le_rfl
    simp only [h0, if_false]
    exact ⟨h1, h2, h3 h0⟩

/-- Numbers do not extend into a rest whose head is not a digit. -/
theorem takeWhile_restOk (rest : List Char) (h : restOk rest = true) :
    rest.takeWhile Char.isDigit = [] ∧ rest.dropWhile Char.isDigit = rest := by
  cases rest with
  | nil => simp
  | cons c t =>
    simp only [restOk, Bool.not_eq_true'] at h
    simp [List.takeWhile_cons, List.dropWhile_cons, h]

theorem parseNum_nat (n : Nat) (rest : List Char) (hrest : restOk rest = true) :
    parseNum (natToDigits n ++ rest) = some ((n : Int), rest) := by
  obtain ⟨h1, h2, h3⟩ := natToDigits_spec n
  obtain ⟨ht, hd⟩ := takeWhile_restOk rest hrest
  obtain ⟨c, t, hct⟩ : ∃ c t, natToDigits n = c :: t := by
    cases hnd : natToDigits n with
    | nil => exact absurd hnd h3
    | cons c t => exact ⟨c, t, rfl⟩
  have hcdig : c.isDigit := h2 c (by rw [hct]; simp)
  have hcne : ¬ c = '-' := by
    intro h; rw [h] at hcdig; simp at hcdig
  have htw : ((natToDigits n ++ rest).takeWhile Char.isDigit) = natToDigits n := by
    rw [takeWhile_append_all Char.isDigit _ _ h2, ht, List.append_nil]
  have hdw : ((natToDigits n ++ rest).dropWhile Char.isDigit) = rest := by
    rw [dropWhile_append_all Char.isDigit _ _ h2, hd]
  have hcons : natToDigits n ++ rest = c :: (t ++ rest) := by rw [hct]; simp
  rw [hcons] at htw hdw ⊢
  simp only [parseNum, hcne, if_false, htw, hdw]
  simp [List.isEmpty_iff, h3, h1]

theorem parseNum_int (i : Int) (rest : List Char) (hrest : restOk rest = true) :
    parseNum (intToChars i ++ rest) = some (i, rest) := by
  cases i with
  | ofNat n => exact parseNum_nat n rest hrest
  | negSucc m =>
    obtain ⟨h1, h2, h3⟩ := natToDigits_spec (m + 1)
    obtain ⟨ht, hd⟩ := takeWhile_restOk rest hrest
    have htw : ((natToDigits (m + 1) ++ rest).takeWhile Char.isDigit) = natToDigits (m + 1) := by
      rw [takeWhile_append_all Char.isDigit _ _ h2, ht, List.append_nil]
    have hdw : ((natToDigits (m + 1) ++ rest).dropWhile Char.isDigit) = rest := by
      rw [dropWhile_append_all Char.isDigit _ _ h2, hd]
    have hcons : intToChars (Int.negSucc m) ++ rest = '-' :: (natToDigits (m + 1) ++ rest) := by
      simp [intToChars]
    rw [hcons]
    simp only [parseNum, if_true, htw, hdw]
    simp only [List.isEmpty_iff, h3, if_false]
    have heq : -((digitsToNat (natToDigits (m + 1)) : Int)) = Int.negSucc m := by
      rw [h1, Int.negSucc_eq]
      push_cast
      ring
    simp [heq]

theorem parseStrBody_raw (c : Char) (r : List Char) (h1 : ¬ c = '"') (h2 : ¬ c = '\\') :
    parseStrBody (c :: r) = (parseStrBody r).map fun p => (c :: p.1, p.2) := by
  conv_lhs => unfold parseStrBody
  simp [h1, h2]

theorem parseStrBody_rt (s : List Char) : ∀ rest,
    parseStrBody (escapeStr s ++ '"' :: rest) = some (s, rest) := by
  induction s with
  | nil =>
    intro rest
    rw [show escapeStr ([] : List Char) = [] from rfl]
    simp only [List.nil_append]
    unfold parseStrBody
    simp
  | cons c s ih =>
    intro rest
    have hesc : escapeStr (c :: s) = escapeChar c ++ escapeStr s := by
      simp [escapeStr]
    rw [hesc, List.append_assoc]
    by_cases h1 : c = '"'
    · subst h1
      rw [show escapeChar '"' = ['\\', '"'] from rfl]
      simp [parseStrBody, unescape, ih rest]
    · by_cases h2 : c = '\\'
      · subst h2
        rw [show escapeChar '\\' = ['\\', '\\'] from rfl]
        simp [parseStrBody, unescape, ih rest]
      · by_cases h3 : c = '\n'
        · subst h3
          rw [show escapeChar '\n' = ['\\', 'n'] from rfl]
          simp [parseStrBody, unescape, ih rest]
        · by_cases h4 : c = '\t'
          · subst h4
            rw [show escapeChar '\t' = ['\\', 't'] from rfl]
            simp [parseStrBody, unescape, ih rest]
          · by_cases h5 : c = '\r'
            · subst h5
              rw [show escapeChar '\r' = ['\\', 'r'] from rfl]
              simp [parseStrBody, unescape, ih rest]
            · have hesc2 : escapeChar c = [c] := by
                simp [escapeChar, h1, h2, h3, h4, h5]
              rw [hesc2]
              simp only [List.cons_append, List.nil_append]
              rw [parseStrBody_raw c _ h1 h2, ih rest]
              rfl


theorem skipWs_cons (c : Char) (t : List Char) (h : isWs c = false) :
    skipWs (c :: t) = c :: t := by
  simp [skipWs, List.dropWhile_cons, h]

theorem matchLit_cons_ne (a c : Char) (as t : List Char) (h : ¬ a = c) :
    matchLit (a :: as) (c :: t) = none := by
  simp [matchLit, h]

theorem stripHead_cons (x c : Char) (t : List Char) :
    stripHead x (c :: t) = if c = x then some t else none := rfl

theorem isWs_of_isDigit (c : Char) (h : c.isDigit = true) : isWs c = false := by
  by_contra hw
  simp only [Bool.not_eq_false] at hw
  simp only [isWs, Bool.or_eq_true, decide_eq_true_eq] at hw
  rcases hw with ((rfl | rfl) | rfl) | rfl <;> exact absurd h (by decide)

theorem ne_of_isDigit (c x : Char) (h : c.isDigit = true) (hx : x.isDigit = false) :
    ¬ c = x := by
  intro h2
  rw [h2] at h
  rw [h] at hx
  cases hx

theorem render_head (v : Json) : ∃ c t, render v = c :: t ∧ isWs c = false ∧
    (¬ c = ']') ∧ (¬ c = '}') ∧ (¬ c = ',') := by
  cases v with
  | null =>
    exact ⟨'n', ['u', 'l', 'l'], by simp [render], by decide, by decide, by decide, by decide⟩
  | bool b =>
    cases b with
    | true =>
      exact ⟨'t', ['r', 'u', 'e'], by simp [render], by decide, by decide, by decide, by decide⟩
    | false =>
      exact ⟨'f', ['a', 'l', 's', 'e'], by simp [render], by decide, by decide, by decide,
        by decide⟩
  | num n =>
    cases n with
    | ofNat m =>
      obtain ⟨-, h2, h3⟩ := natToDigits_spec m
      obtain ⟨c, t, hct⟩ : ∃ c t, natToDigits m = c :: t := by
        cases hnd : natToDigits m with
        | nil => exact absurd hnd h3
        | cons c t => exact ⟨c, t, rfl⟩
      have hcd : c.isDigit := h2 c (by rw [hct]; simp)
      refine ⟨c, t, by simp [render, intToChars, hct], isWs_of_isDigit c hcd, ?_, ?_, ?_⟩ <;>
        exact ne_of_isDigit c _ hcd (by decide)
    | negSucc m =>
      exact ⟨'-', natToDigits (m + 1), by simp [render, intToChars], by decide, by decide,
        by decide, by decide⟩
  | str s =>
    exact ⟨'"', escapeStr s ++ ['"'], by simp [render], by decide, by decide, by decide,
      by decide⟩
  | arr xs =>
    cases xs with
    | nil => exact ⟨'[', [']'], by simp [render], by decide, by decide, by decide, by decide⟩
    | cons x xs =>
      exact ⟨'[', renderElems x xs ++ [']'], by simp [render], by decide, by decide, by decide,
        by decide⟩
  | obj fs =>
    cases fs with
    | nil => exact ⟨'{', ['}'], by simp [render], by decide, by decide, by decide, by decide⟩
    | cons f fs =>
      exact ⟨'{', renderMembers f fs ++ ['}'], by simp [render], by decide, by decide,
        by decide, by decide⟩

theorem renderMembers_head (m : List Char × Json) (fs : List (List Char × Json)) :
    ∃ t, renderMembers m fs = '"' :: t := by
  obtain ⟨k, v⟩ := m
  cases fs with
  | nil => exact ⟨escapeStr k ++ '"' :: ':' :: render v, by simp [renderMembers]⟩
  | cons g gs =>
    exact ⟨escapeStr k ++ '"' :: ':' :: (render v ++ ',' :: renderMembers g gs),
      by simp [renderMembers]⟩

theorem skipWs_render (v : Json) (rest : List Char) :
    skipWs (render v ++ rest) = render v ++ rest := by
  obtain ⟨c, t, hct, hws, -, -, -⟩ := render_head v
  rw [hct]
  simp only [List.cons_append]
  exact skipWs_cons _ _ hws

theorem intToChars_head (i : Int) : ∃ c t, intToChars i = c :: t ∧ isWs c = false ∧
    (¬ ('n' : Char) = c) ∧ (¬ ('t' : Char) = c) ∧ (¬ ('f' : Char) = c) ∧
    (¬ c = '"') ∧ (¬ c = '{') ∧ (¬ c = '[') := by
  cases i with
  | ofNat m =>
    obtain ⟨-, h2, h3⟩ := natToDigits_spec m
    obtain ⟨c, t, hct⟩ : ∃ c t, natToDigits m = c :: t := by
      cases hnd : natToDigits m with
      | nil => exact absurd hnd h3
      | cons c t => exact ⟨c, t, rfl⟩
    have hcd : c.isDigit := h2 c (by rw [hct]; simp)
    refine ⟨c, t, by simp [intToChars, hct], isWs_of_isDigit c hcd, ?_, ?_, ?_, ?_, ?_, ?_⟩
    · exact fun h => (ne_of_isDigit c 'n' hcd (by decide)) h.symm
    · exact fun h => (ne_of_isDigit c 't' hcd (by decide)) h.symm
    · exact fun h => (ne_of_isDigit c 'f' hcd (by decide)) h.symm
    · exact ne_of_isDigit c '"' hcd (by decide)
    · exact ne_of_isDigit c '{' hcd (by decide)
    · exact ne_of_isDigit c '[' hcd (by decide)
  | negSucc m =>
    exact ⟨'-', natToDigits (m + 1), by simp [intToChars], by decide, by decide, by decide,
      by decide, by decide, by decide, by decide⟩

theorem parse_render_rt : ∀ f : Nat,
    (∀ (v : Json) (rest : List Char), restOk rest = true → (render v).length < f →
      parseVal f (render v ++ rest) = some (v, rest)) ∧
    (∀ (m : List Char × Json) (fs : List (List Char × Json)) (rest : List Char),
      (renderMembers m fs).length < f →
      parseMembers f (renderMembers m fs ++ '}' :: rest) = some (m :: fs, rest)) ∧
    (∀ (x : Json) (xs : List Json) (rest : List Char),
      (renderElems x xs).length + 1 < f →
      parseElems f (renderElems x xs ++ ']' :: rest) = some (x :: xs, rest)) := by
  intro f
  induction f using Nat.strong_induction_on with
  | _ f ih =>
  cases f with
  | zero =>
    exact ⟨fun v rest _ h => absurd h (by omega),
      fun m fs rest h => absurd h (by omega),
      fun x xs rest h => absurd h (by omega)⟩
  | succ g =>
  refine ⟨?_, ?_, ?_⟩
  · intro v rest hrest hlen
    cases v with
    | null =>
      rw [show render Json.null = ['n', 'u', 'l', 'l'] from by simp [render]]
      simp [parseVal, skipWs, List.dropWhile_cons, isWs, matchLit]
    | bool b =>
      cases b with
      | true =>
        rw [show render (Json.bool true) = ['t', 'r', 'u', 'e'] from by simp [render]]
        simp [parseVal, skipWs, List.dropWhile_cons, isWs, matchLit]
      | false =>
        rw [show render (Json.bool false) = ['f', 'a', 'l', 's', 'e'] from by simp [render]]
        simp [parseVal, skipWs, List.dropWhile_cons, isWs, matchLit]
    | str s0 =>
      rw [show render (Json.str s0) = '"' :: (escapeStr s0 ++ ['"']) from by simp [render]]
      rw [show ('"' :: (escapeStr s0 ++ ['"'])) ++ rest
          = '"' :: (escapeStr s0 ++ '"' :: rest) from by simp]
      simp [parseVal, skipWs, List.dropWhile_cons, isWs, matchLit, parseStrBody_rt]
    | num i =>
      rw [show render (Json.num i) = intToChars i from by simp [render]]
      obtain ⟨c, t, hct, hws, hn, ht, hf, hq, hbr, hbk⟩ := intToChars_head i
      rw [hct, List.cons_append]
      have hnull : matchLit "null".data (c :: (t ++ rest)) = none :=
        matchLit_cons_ne 'n' c _ _ hn
      have htrue : matchLit "true".data (c :: (t ++ rest)) = none :=
        matchLit_cons_ne 't' c _ _ ht
      have hfalse : matchLit "false".data (c :: (t ++ rest)) = none :=
        matchLit_cons_ne 'f' c _ _ hf
      have hnum : parseNum (c :: (t ++ rest)) = some (i, rest) := by
        rw [← List.cons_append, ← hct]
        exact parseNum_int i rest hrest
      simp [parseVal, skipWs_cons c _ hws, List.dropWhile_cons, isWs, hnull, htrue, hfalse, hq, hbr, hbk, hnum]
    | arr xs =>
      cases xs with
      | nil =>
        rw [show render (Json.arr []) = ['[', ']'] from by simp [render]]
        simp [parseVal, skipWs, List.dropWhile_cons, isWs, matchLit, stripHead]
      | cons x xs =>
        rw [show render (Json.arr (x :: xs)) = '[' :: (renderElems x xs ++ [']'])
            from by simp [render]]
        rw [show ('[' :: (renderElems x xs ++ [']'])) ++ rest
            = '[' :: (renderElems x xs ++ ']' :: rest) from by simp]
        have hlen2 : (renderElems x xs).length + 1 < g := by
          have : (render (Json.arr (x :: xs))).length = (renderElems x xs).length + 2 := by
            simp [render]
          omega
        have hel := (ih g (by omega)).2.2 x xs rest hlen2
        obtain ⟨c0, t0, hct0, hws0, hne1, hne2, hne3⟩ := render_head x
        have hhead : ∃ t1, renderElems x xs = c0 :: t1 := by
          cases xs with
          | nil => exact ⟨t0, by simp [renderElems, hct0]⟩
          | cons y ys => exact ⟨t0 ++ ',' :: renderElems y ys, by simp [renderElems, hct0]⟩
        obtain ⟨t1, hct1⟩ := hhead
        have hsk : skipWs (renderElems x xs ++ ']' :: rest)
            = renderElems x xs ++ ']' :: rest := by
          rw [hct1]
          simp only [List.cons_append]
          exact skipWs_cons _ _ hws0
        have hst : stripHead ']' (renderElems x xs ++ ']' :: rest) = none := by
          rw [hct1]
          simp [stripHead, hne1]
        have hsk2 : List.dropWhile isWs (renderElems x xs ++ ']' :: rest)
            = renderElems x xs ++ ']' :: rest := hsk
        simp [parseVal, skipWs, List.dropWhile_cons, isWs, matchLit, hsk2, hst, hel]
    | obj fs =>
      cases fs with
      | nil =>
        rw [show render (Json.obj []) = ['{', '}'] from by simp [render]]
        simp [parseVal, skipWs, List.dropWhile_cons, isWs, matchLit, stripHead]
      | cons m fs =>
        rw [show render (Json.obj (m :: fs)) = '{' :: (renderMembers m fs ++ ['}'])
            from by simp [render]]
        rw [show ('{' :: (renderMembers m fs ++ ['}'])) ++ rest
            = '{' :: (renderMembers m fs ++ '}' :: rest) from by simp]
        have hlen2 : (renderMembers m fs).length < g := by
          have : (render (Json.obj (m :: fs))).length = (renderMembers m fs).length + 2 := by
            simp [render]
          omega
        have hmem := (ih g (by omega)).2.1 m fs rest hlen2
        obtain ⟨t1, hct1⟩ := renderMembers_head m fs
        have hsk : skipWs (renderMembers m fs ++ '}' :: rest)
            = renderMembers m fs ++ '}' :: rest := by
          rw [hct1]
          simp only [List.cons_append]
          exact skipWs_cons _ _ (by decide)
        have hst : stripHead '}' (renderMembers m fs ++ '}' :: rest) = none := by
          rw [hct1]
          simp [stripHead]
        have hsk2 : List.dropWhile isWs (renderMembers m fs ++ '}' :: rest)
            = renderMembers m fs ++ '}' :: rest := hsk
        simp [parseVal, skipWs, List.dropWhile_cons, isWs, matchLit, hsk2, hst, hmem]
  · intro m fs rest hlen
    obtain ⟨k, v⟩ := m
    cases fs with
    | nil =>
      rw [show renderMembers (k, v) [] = '"' :: (escapeStr k ++ '"' :: ':' :: render v)
          from by simp [renderMembers]]
      rw [show ('"' :: (escapeStr k ++ '"' :: ':' :: render v)) ++ '}' :: rest
          = '"' :: (escapeStr k ++ '"' :: ':' :: (render v ++ '}' :: rest)) from by simp]
      have hrm : (renderMembers (k, v) []).length
          = (render v).length + (escapeStr k).length + 3 := by
        simp [renderMembers]
        omega
      have hval := (ih g (by omega)).1 v ('}' :: rest) rfl (by omega)
      simp [parseMembers, skipWs, List.dropWhile_cons, isWs, stripHead, parseStrBody_rt, hval]
    | cons m2 fs =>
      rw [show renderMembers (k, v) (m2 :: fs)
          = '"' :: (escapeStr k ++ '"' :: ':' :: (render v ++ ',' :: renderMembers m2 fs))
          from by simp [renderMembers]]
      rw [show ('"' :: (escapeStr k ++ '"' :: ':' :: (render v ++ ',' :: renderMembers m2 fs)))
            ++ '}' :: rest
          = '"' :: (escapeStr k ++ '"' :: ':'
            :: (render v ++ ',' :: (renderMembers m2 fs ++ '}' :: rest))) from by simp]
      have hrm : (renderMembers (k, v) (m2 :: fs)).length
          = (render v).length + (escapeStr k).length + (renderMembers m2 fs).length + 4 := by
        simp [renderMembers]
        omega
      have hval := (ih g (by omega)).1 v (',' :: (renderMembers m2 fs ++ '}' :: rest))
        rfl (by omega)
      have hmem := (ih g (by omega)).2.1 m2 fs rest (by omega)
      have hvr : render v ++ ',' :: (renderMembers m2 fs ++ '}' :: rest)
          = render v ++ (',' :: (renderMembers m2 fs ++ '}' :: rest)) := rfl
      simp [parseMembers, skipWs, List.dropWhile_cons, isWs, stripHead, parseStrBody_rt, hval, hmem]
  · intro x xs rest hlen
    cases xs with
    | nil =>
      rw [show renderElems x [] = render x from by simp [renderElems]]
      have hval := (ih g (by omega)).1 x (']' :: rest) rfl
        (by
          have : renderElems x [] = render x := by simp [renderElems]
          rw [this] at hlen
          omega)
      rw [show render x ++ ']' :: rest = render x ++ (']' :: rest) from rfl]
      simp [parseElems, skipWs, List.dropWhile_cons, isWs, stripHead, hval]
    | cons y ys =>
      rw [show renderElems x (y :: ys) = render x ++ ',' :: renderElems y ys
          from by simp [renderElems]]
      rw [show (render x ++ ',' :: renderElems y ys) ++ ']' :: rest
          = render x ++ ',' :: (renderElems y ys ++ ']' :: rest) from by simp]
      have hre : (renderElems x (y :: ys)).length
          = (render x).length + (renderElems y ys).length + 1 := by
        simp [renderElems]
        omega
      obtain ⟨c0, t0, hct0, -, -, -, -⟩ := render_head x
      have hx1 : 1 ≤ (render x).length := by
        rw [hct0]
        simp
      have hval := (ih g (by omega)).1 x (',' :: (renderElems y ys ++ ']' :: rest))
        rfl (by omega)
      have hel := (ih g (by omega)).2.2 y ys rest (by omega)
      simp [parseElems, skipWs, List.dropWhile_cons, isWs, stripHead, hval, hel]

theorem parseJson_render (v : Json) : parseJson (render v) = some v := by
  have h := (parse_render_rt ((render v).length + 1)).1 v [] rfl (by omega)
  rw [List.append_nil] at h
  unfold parseJson
  rw [h]
  simp [skipWs]

theorem parseMembers_close_none (f : Nat) (rest : List Char) :
    parseMembers f ('}' :: rest) = none := by
  cases f with
  | zero => rfl
  | succ g => simp [parseMembers, skipWs, List.dropWhile_cons, isWs, stripHead]

theorem parseMembers_trailing : ∀ f (m : List Char × Json) fs (rest : List Char),
    (renderMembers m fs).length < f →
    parseMembers f (renderMembers m fs ++ ',' :: '}' :: rest) = none := by
  intro f
  induction f using Nat.strong_induction_on with
  | _ f ih =>
  cases f with
  | zero => exact fun m fs rest h => absurd h (by omega)
  | succ g =>
  intro m fs rest hlen
  obtain ⟨k, v⟩ := m
  cases fs with
  | nil =>
    rw [show renderMembers (k, v) [] = '"' :: (escapeStr k ++ '"' :: ':' :: render v)
        from by simp [renderMembers]]
    rw [show ('"' :: (escapeStr k ++ '"' :: ':' :: render v)) ++ ',' :: '}' :: rest
        = '"' :: (escapeStr k ++ '"' :: ':' :: (render v ++ ',' :: '}' :: rest))
        from by simp]
    have hrm : (renderMembers (k, v) []).length
        = (render v).length + (escapeStr k).length + 3 := by
      simp [renderMembers]
      omega
    have hval := (parse_render_rt g).1 v (',' :: '}' :: rest) rfl (by omega)
    simp [parseMembers, skipWs, List.dropWhile_cons, isWs, stripHead, parseStrBody_rt,
      hval, parseMembers_close_none]
  | cons m2 fs =>
    rw [show renderMembers (k, v) (m2 :: fs)
        = '"' :: (escapeStr k ++ '"' :: ':' :: (render v ++ ',' :: renderMembers m2 fs))
        from by simp [renderMembers]]
    rw [show ('"' :: (escapeStr k ++ '"' :: ':' :: (render v ++ ',' :: renderMembers m2 fs)))
          ++ ',' :: '}' :: rest
        = '"' :: (escapeStr k ++ '"' :: ':'
          :: (render v ++ ',' :: (renderMembers m2 fs ++ ',' :: '}' :: rest)))
        from by simp]
    have hrm : (renderMembers (k, v) (m2 :: fs)).length
        = (render v).length + (escapeStr k).length + (renderMembers m2 fs).length + 4 := by
      simp [renderMembers]
      omega
    have hval := (parse_render_rt g).1 v (',' :: (renderMembers m2 fs ++ ',' :: '}' :: rest))
      rfl (by omega)
    have hmem := ih g (by omega) m2 fs rest (by omega)
    simp [parseMembers, skipWs, List.dropWhile_cons, isWs, stripHead, parseStrBody_rt,
      hval, hmem]

theorem parseJson_obj_trailing_none (fs : List (List Char × Json)) :
    parseJson ((render (Json.obj fs)).dropLast ++ [',', '}']) = none := by
  cases fs with
  | nil =>
    rw [show (render (Json.obj [])).dropLast = ['{'] from by simp [render]]
    rfl
  | cons m fs =>
    have hdl : (render (Json.obj (m :: fs))).dropLast = '{' :: renderMembers m fs := by
      rw [show render (Json.obj (m :: fs)) = '{' :: (renderMembers m fs ++ ['}'])
          from by simp [render]]
      rw [show '{' :: (renderMembers m fs ++ ['}'])
          = ('{' :: renderMembers m fs) ++ ['}'] from by simp]
      rw [List.dropLast_concat]
    rw [hdl]
    rw [show ('{' :: renderMembers m fs) ++ [',', '}']
        = '{' :: (renderMembers m fs ++ ',' :: '}' :: ([] : List Char)) from by simp]
    unfold parseJson
    obtain ⟨t1, hct1⟩ := renderMembers_head m fs
    have hsk : List.dropWhile isWs (renderMembers m fs ++ ',' :: '}' :: ([] : List Char))
        = renderMembers m fs ++ ',' :: '}' :: ([] : List Char) := by
      rw [hct1]
      simp [List.dropWhile_cons, isWs]
    have hst : stripHead '}' (renderMembers m fs ++ ',' :: '}' :: ([] : List Char)) = none := by
      rw [hct1]
      simp [stripHead]
    have hlen : ('{' :: (renderMembers m fs ++ ',' :: '}' :: ([] : List Char))).length
        = (renderMembers m fs).length + 3 := by simp
    rw [hlen]
    have hmem := parseMembers_trailing ((renderMembers m fs).length + 3) m fs [] (by omega)
    simp [parseVal, skipWs, List.dropWhile_cons, isWs, matchLit, hsk, hst, hmem]

theorem startsTicks_notTick (a : Char) (t : List Char) (h : isTick a = false) :
    startsTicks (a :: t) = none := by
  cases t with
  | nil => rfl
  | cons b t2 =>
    cases t2 with
    | nil => rfl
    | cons c t3 => simp [startsTicks, h]

theorem findClose_append (r t : List Char) (h : ∀ c ∈ r, isTick c = false) :
    findClose (r ++ tickChar :: tickChar :: tickChar :: t) = some (r, t) := by
  induction r with
  | nil =>
    simp [findClose, startsTicks, isTick]
  | cons c r ih =>
    have hc : isTick c = false := h c (by simp)
    simp only [List.cons_append, findClose, startsTicks_notTick c _ hc, List.append_eq]
    rw [ih fun x hx => h x (by simp [hx])]
    rfl

theorem stripFencesF_nil (f : Nat) : stripFencesF f [] = [] := by
  cases f <;> rfl

theorem ticks_data : "```".data = [tickChar, tickChar, tickChar] := by decide

theorem fence_data : "```json\n".data
    = tickChar :: tickChar :: tickChar :: 'j' :: 's' :: 'o' :: 'n' :: '\n' :: [] := by decide

theorem matchFence_fenced (r : List Char) (h : ∀ c ∈ r, isTick c = false) :
    matchFenceAt ("```json\n".data ++ (r ++ "```".data)) = some (r, []) := by
  rw [fence_data, ticks_data]
  rw [show (tickChar :: tickChar :: tickChar :: 'j' :: 's' :: 'o' :: 'n' :: '\n' :: [])
        ++ (r ++ [tickChar, tickChar, tickChar])
      = tickChar :: tickChar :: tickChar ::
        ('j' :: 's' :: 'o' :: 'n' :: '\n' :: (r ++ tickChar :: tickChar :: tickChar :: []))
      from by simp]
  unfold matchFenceAt
  rw [show startsTicks (tickChar :: tickChar :: tickChar ::
      ('j' :: 's' :: 'o' :: 'n' :: '\n' :: (r ++ tickChar :: tickChar :: tickChar :: [])))
      = some ('j' :: 's' :: 'o' :: 'n' :: '\n' :: (r ++ tickChar :: tickChar :: tickChar :: []))
      from by simp [startsTicks, isTick]]
  have h1 : matchLit "json".data
      ('j' :: 's' :: 'o' :: 'n' :: '\n' :: (r ++ tickChar :: tickChar :: tickChar :: []))
      = some ('\n' :: (r ++ tickChar :: tickChar :: tickChar :: [])) := by
    simp [matchLit]
  have h2 := findClose_append r [] h
  simp [h1, stripHead, h2]

theorem stripFencesF_fenced (r : List Char) (f : Nat) (h : ∀ c ∈ r, isTick c = false) :
    stripFencesF (f + 1) ("```json\n".data ++ (r ++ "```".data)) = r := by
  have hmf := matchFence_fenced r h
  have hinput : "```json\n".data ++ (r ++ "```".data)
      = tickChar :: (tickChar :: tickChar :: 'j' :: 's' :: 'o' :: 'n' :: '\n' ::
        (r ++ "```".data)) := by
    rw [fence_data]
    simp
  rw [hinput] at hmf ⊢
  simp [stripFencesF, hmf, stripFencesF_nil]

theorem stripFences_fenced (r : List Char) (h : ∀ c ∈ r, isTick c = false) :
    stripFences ("```json\n".data ++ (r ++ "```".data)) = r := by
  unfold stripFences
  have hlen : ("```json\n".data ++ (r ++ "```".data)).length = r.length + 10 + 1 := by
    rw [fence_data, ticks_data]
    simp
    try omega
  rw [hlen]
  exact stripFencesF_fenced r (r.length + 10) h

theorem stripFencesF_no_tick (f : Nat) : ∀ s, (∀ c ∈ s, isTick c = false) →
    stripFencesF f s = s := by
  induction f with
  | zero => intro s _; rfl
  | succ f ih =>
    intro s h
    cases s with
    | nil => rfl
    | cons c rest =>
      have hc := h c (by simp)
      have hmf : matchFenceAt (c :: rest) = none := by
        unfold matchFenceAt
        rw [startsTicks_notTick c rest hc]
      simp [stripFencesF, hmf, ih rest fun x hx => h x (by simp [hx])]

theorem braceSpan_wrapped (mid : List Char) :
    braceSpan ('{' :: (mid ++ ['}'])) = some ('{' :: (mid ++ ['}'])) := by
  unfold braceSpan
  have h1 : List.dropWhile (fun c => decide (c ≠ '{')) ('{' :: (mid ++ ['}']))
      = '{' :: (mid ++ ['}']) := by
    simp [List.dropWhile_cons]
  have h2 : ('{' :: (mid ++ ['}'])).reverse = '}' :: (mid.reverse ++ ['{']) := by
    simp
  have h3 : List.dropWhile (fun c => decide (c ≠ '}')) ('}' :: (mid.reverse ++ ['{']))
      = '}' :: (mid.reverse ++ ['{']) := by
    simp [List.dropWhile_cons]
  rw [h1]
  simp only [h2, h3]
  have h4 : ('}' :: (mid.reverse ++ ['{'])).reverse = '{' :: (mid ++ ['}']) := by
    simp
  simp [h4]

theorem afterCommaWs_blocked (close : Char) (hcl : ¬ close = ',') :
    ∀ (x r : List Char), (afterCommaWs close (x ++ [close])).isSome = false →
    afterCommaWs close (x ++ ',' :: close :: r) = none := by
  intro x
  induction x with
  | nil =>
    intro r hs
    have : afterCommaWs close ([] ++ [close]) = some [] := by simp [afterCommaWs]
    rw [this] at hs
    cases hs
  | cons c x ih =>
    intro r hs
    simp only [List.cons_append, afterCommaWs] at hs ⊢
    by_cases h1 : c = close
    · simp [h1] at hs
    · simp only [h1, if_false] at hs ⊢
      by_cases h2 : isWs c
      · simp only [h2, if_true] at hs ⊢
        exact ih r hs
      · simp [h2]

theorem cleanupF_no_match (close : Char) : ∀ (f : Nat) (s : List Char),
    hasCommaClose close s = false → cleanupF close f s = s := by
  intro f
  induction f with
  | zero => intro s _; rfl
  | succ f ih =>
    intro s h
    cases s with
    | nil => rfl
    | cons c rest =>
      simp only [hasCommaClose, Bool.or_eq_false_iff, Bool.and_eq_false_iff] at h
      obtain ⟨h1, h2⟩ := h
      by_cases hc : c = ','
      · have hac : afterCommaWs close rest = none := by
          rcases h1 with h1 | h1
          · rw [hc] at h1
            simp at h1
          · cases hao : afterCommaWs close rest with
            | none => rfl
            | some r2 => rw [hao] at h1; cases h1
        simp [cleanupF, hc, hac, ih rest h2]
      · simp [cleanupF, hc, ih rest h2]

theorem cleanupF_append_trailing (close : Char) (hcl : ¬ close = ',') :
    ∀ (x : List Char) (f : Nat), x.length + 2 ≤ f →
    hasCommaClose close (x ++ [close]) = false →
    cleanupF close f (x ++ [',', close]) = x ++ [close] := by
  intro x
  induction x with
  | nil =>
    intro f hf h
    match f, hf with
    | f + 2, _ =>
      have hac : afterCommaWs close [close] = some [] := by simp [afterCommaWs]
      have hnil : cleanupF close (f + 1) [] = [] := by cases f <;> rfl
      simp [cleanupF, hac, hnil]
  | cons c x ih =>
    intro f hf h
    have hf2 : x.length + 2 + 1 ≤ f := by
      simp only [List.length_cons] at hf
      omega
    simp only [List.cons_append, hasCommaClose, Bool.or_eq_false_iff,
      Bool.and_eq_false_iff] at h
    obtain ⟨h1, h2⟩ := h
    have h2' : hasCommaClose close (x ++ [close]) = false := h2
    match f, hf2 with
    | f + 1, _ =>
      by_cases hc : c = ','
      · have hsome : (afterCommaWs close (x ++ [close])).isSome = false := by
          rcases h1 with h1 | h1
          · rw [hc] at h1
            simp at h1
          · exact h1
        have hac := afterCommaWs_blocked close hcl x [] hsome
        have hac2 : afterCommaWs close (x ++ [',', close]) = none := by
          rw [show (x ++ [',', close] : List Char) = x ++ ',' :: close :: [] from by simp] at hac ⊢
          exact hac
        have hih := ih f (by omega) h2'
        simp only [cleanupF, hc, if_true, List.append_eq]
        rw [hac2]
        simp [hih]
      · have hih := ih f (by omega) h2'
        simp only [cleanupF, hc, if_false, List.append_eq]
        rw [hih]
        simp

theorem stripFences_no_tick (s : List Char) (h : ∀ c ∈ s, isTick c = false) :
    stripFences s = s := by
  unfold stripFences
  exact stripFencesF_no_tick _ s h

theorem render_obj_shape (fs : List (List Char × Json)) :
    ∃ mid, render (Json.obj fs) = '{' :: (mid ++ ['}']) := by
  cases fs with
  | nil => exact ⟨[], by simp [render]⟩
  | cons m fs => exact ⟨renderMembers m fs, by simp [render]⟩

/-- C8 (amended): after stripping code fences and backticks, extraction takes the span
from the first opening brace to the LAST closing brace (not the first balanced span) and
parses it, retrying once with trailing commas before a closer removed. Consequently, for
every rendered JSON object, extraction succeeds on the object wrapped in a json code fence
and on the object with one trailing comma inserted before its final closing brace,
returning the object itself. -/
theorem C8_amended (fs : List (List Char × Json))
    (hticks : ∀ c ∈ render (Json.obj fs), isTick c = false)
    (hbrace : hasCommaClose '}' (render (Json.obj fs)) = false)
    (hbracket : hasCommaClose ']' (render (Json.obj fs)) = false) :
    extractJsonFromText ("```json\n".data ++ (render (Json.obj fs) ++ "```".data))
      = some (Json.obj fs) ∧
    extractJsonFromText ((render (Json.obj fs)).dropLast ++ [',', '}'])
      = some (Json.obj fs) := by
  obtain ⟨mid, hmid⟩ := render_obj_shape fs
  have hfilter : (render (Json.obj fs)).filter (fun c => ¬ isTick c)
      = render (Json.obj fs) := by
    apply List.filter_eq_self.mpr
    intro c hc
    simp [hticks c hc]
  constructor
  · unfold extractJsonFromText
    rw [stripFences_fenced _ hticks, hfilter, hmid, braceSpan_wrapped mid, ← hmid]
    simp [parseJson_render]
  · have hdl : (render (Json.obj fs)).dropLast = '{' :: mid := by
      rw [hmid]
      rw [show ('{' :: (mid ++ ['}'])) = ('{' :: mid) ++ ['}'] from by simp]
      rw [List.dropLast_concat]
    have hticks2 : ∀ c ∈ (render (Json.obj fs)).dropLast ++ [',', '}'],
        isTick c = false := by
      intro c hc
      rcases List.mem_append.mp hc with h | h
      · rw [hdl] at h
        rcases List.mem_cons.mp h with rfl | h
        · decide
        · exact hticks c (by rw [hmid]; simp [h])
      · rcases List.mem_cons.mp h with rfl | h
        · decide
        · rcases List.mem_cons.mp h with rfl | h
          · decide
          · cases h
    have hfilter2 : ((render (Json.obj fs)).dropLast ++ [',', '}']).filter
        (fun c => ¬ isTick c) = (render (Json.obj fs)).dropLast ++ [',', '}'] := by
      apply List.filter_eq_self.mpr
      intro c hc
      simp [hticks2 c hc]
    have hspan : (render (Json.obj fs)).dropLast ++ [',', '}']
        = '{' :: ((mid ++ [',']) ++ ['}']) := by
      rw [hdl]
      simp
    have hclean : cleanTrailingCommas ((render (Json.obj fs)).dropLast ++ [',', '}'])
        = render (Json.obj fs) := by
      unfold cleanTrailingCommas
      have hb : hasCommaClose '}' ((render (Json.obj fs)).dropLast ++ ['}']) = false := by
        rw [hdl]
        rw [show ('{' :: mid) ++ ['}'] = '{' :: (mid ++ ['}']) from by simp, ← hmid]
        exact hbrace
      have hx : ((render (Json.obj fs)).dropLast ++ [',', '}']).length
          = ((render (Json.obj fs)).dropLast).length + 2 := by simp
      have h1 := cleanupF_append_trailing '}' (by decide) ((render (Json.obj fs)).dropLast)
        (((render (Json.obj fs)).dropLast).length + 2) (by omega) hb
      rw [hx, h1]
      have hback : (render (Json.obj fs)).dropLast ++ ['}'] = render (Json.obj fs) := by
        rw [hdl]
        rw [show ('{' :: mid) ++ ['}'] = '{' :: (mid ++ ['}']) from by simp, ← hmid]
      rw [hback]
      exact cleanupF_no_match ']' _ _ hbracket
    have hnone := parseJson_obj_trailing_none fs
    unfold extractJsonFromText
    rw [stripFences_no_tick _ hticks2, hfilter2, hspan, braceSpan_wrapped (mid ++ [',']),
      ← hspan]
    simp [hnone, hclean, parseJson_render]

theorem renderSample : render (Json.obj [("a".data, Json.num 1)]) = "\x7b\"a\":1\x7d".data := by
  simp [render, renderMembers, intToChars, natToDigits, digsAux, escapeStr, escapeChar, dchar]

theorem C8_amended_witness :
    extractJsonFromText
        ("```json\n".data ++ (render (Json.obj [("a".data, Json.num 1)]) ++ "```".data))
      = some (Json.obj [("a".data, Json.num 1)]) ∧
    extractJsonFromText ((render (Json.obj [("a".data, Json.num 1)])).dropLast ++ [',', '}'])
      = some (Json.obj [("a".data, Json.num 1)]) :=
  C8_amended [("a".data, Json.num 1)]
    (by rw [renderSample]; decide)
    (by rw [renderSample]; decide)
    (by rw [renderSample]; decide)

theorem C8_not_first_balanced_span :
    (extractJsonFromText ("\x7b\"a\":1\x7d \x7b\"b\":2\x7d".data)).isSome = false ∧
    extractJsonFromText ("\x7b\"a\":1\x7d".data) = some (Json.obj [("a".data, Json.num 1)]) :=
  ⟨rfl, rfl⟩

/-! ## Claims C1, C2, C7 (the inference gateway) and C3 (the merger) -/

theorem parseLabValues_key (text : String) (p : String × JsNum)
    (hp : p ∈ parseLabValues text) :
    p.1 = "hemoglobin" ∨ p.1 = "platelet" ∨ p.1 = "glucose_fasting" := by
  unfold parseLabValues at hp
  rcases List.mem_filterMap.mp hp with ⟨pat, hmem, hf⟩
  rcases Option.map_eq_some'.mp hf with ⟨cap, hscan, hpair⟩
  simp only [patterns, List.mem_cons, List.not_mem_nil, or_false] at hmem
  rcases hmem with rfl | rfl | rfl
  · left; rw [← hpair]; rfl
  · right; left; rw [← hpair]; rfl
  · right; right; rw [← hpair]; rfl

theorem assessValue_note_none (key : String) (v : JsNum) (meta : PatientMeta)
    (h : key = "hemoglobin" ∨ key = "platelet" ∨ key = "glucose_fasting") :
    (assessValue key v meta).note = none := by
  rcases h with rfl | rfl | rfl <;> rfl

theorem createWatsonPrompt_ok (text : String) (meta : PatientMeta) :
    createWatsonPrompt ((parseLabValues text).map fun p => assessValue p.1 p.2 meta)
      = Except.ok () := by
  have hall : ((parseLabValues text).map fun p => assessValue p.1 p.2 meta).all
      (fun a => a.note.isNone) = true := by
    rw [List.all_eq_true]
    intro a ha
    rcases List.mem_map.mp ha with ⟨p, hp, rfl⟩
    simp [assessValue_note_none p.1 p.2 meta (parseLabValues_key text p hp)]
  unfold createWatsonPrompt
  rw [if_pos hall]

theorem analyzeLabReport_unconfigured (env : Env) (up : Except String Json)
    (rawText : String) (meta : PatientMeta) (hconf : isWatsonConfigured env = false) :
    analyzeLabReport env up rawText meta = Except.ok
      { assessments := (parseLabValues rawText).map fun p => assessValue p.1 p.2 meta
        result := localFallbackResult
          ((parseLabValues rawText).map fun p => assessValue p.1 p.2 meta)
        rawWatson := Json.null } := by
  unfold analyzeLabReport
  simp [createWatsonPrompt_ok rawText meta, hconf, Bind.bind, Except.bind, pure, Except.pure]

theorem analyzeLabReport_failed (env : Env) (e : String)
    (rawText : String) (meta : PatientMeta) (hconf : isWatsonConfigured env = true) :
    analyzeLabReport env (Except.error e) rawText meta = Except.ok
      { assessments := (parseLabValues rawText).map fun p => assessValue p.1 p.2 meta
        result := localFallbackResult
          ((parseLabValues rawText).map fun p => assessValue p.1 p.2 meta)
        rawWatson := Json.null } := by
  unfold analyzeLabReport
  simp [createWatsonPrompt_ok rawText meta, hconf, Bind.bind, Except.bind, pure, Except.pure]

theorem analyzeLabReport_resolved (env : Env) (w : Json)
    (rawText : String) (meta : PatientMeta) (hconf : isWatsonConfigured env = true) :
    analyzeLabReport env (Except.ok w) rawText meta = Except.ok
      { assessments := (parseLabValues rawText).map fun p => assessValue p.1 p.2 meta
        result := sniffGenerated w
        rawWatson := w } := by
  unfold analyzeLabReport
  simp [createWatsonPrompt_ok rawText meta, hconf, Bind.bind, Except.bind, pure, Except.pure]

/-- C1: for every environment, upstream transport behavior (rejection or
resolution with any payload), input text and patient metadata,
`analyzeLabReport` resolves — it never propagates an error to its caller —
and the resolved record carries the assessment list computed from the
parsed lab values together with a result value and the raw response. -/
theorem C1_analyze_never_raises (env : Env) (upstream : Except String Json)
    (rawText : String) (meta : PatientMeta) :
    ∃ out : AnalyzeOut, analyzeLabReport env upstream rawText meta = Except.ok out ∧
      out.assessments = (parseLabValues rawText).map fun p => assessValue p.1 p.2 meta := by
  cases hconf : isWatsonConfigured env with
  | false => exact ⟨_, analyzeLabReport_unconfigured env upstream rawText meta hconf, rfl⟩
  | true =>
    cases upstream with
    | error e => exact ⟨_, analyzeLabReport_failed env e rawText meta hconf, rfl⟩
    | ok w => exact ⟨_, analyzeLabReport_resolved env w rawText meta hconf, rfl⟩

/-- C2 counterexample: a concrete unconfigured run resolves with a result
object that carries no `method` member at all (no provenance tag exists). -/
theorem C2_no_method_tag :
    (analyzeLabReport {} (Except.error "transport down") "" {}).toOption.map
        (fun out => jsonMember "method".data out.result) = some false := by decide

/-- C2 (amended): no result of `analyzeLabReport` carries a `method`
provenance tag.  Provenance is observable only through the returned record
itself: when the service is unconfigured or the transport rejects, `result`
is the local fallback object built from the assessments (whose members are
exactly `explanations`/`action_items`/`questions` — no `method`) and
`rawWatson` is `null`; when the transport resolves with payload `w`,
`rawWatson` is `w` and `result` is the shape-sniffed normalization of `w`. -/
theorem C2_provenance (env : Env) (upstream : Except String Json)
    (rawText : String) (meta : PatientMeta) :
    ∃ out : AnalyzeOut, analyzeLabReport env upstream rawText meta = Except.ok out ∧
      ((isWatsonConfigured env = false ∨ (∃ e, upstream = Except.error e)) →
        out.result = localFallbackResult out.assessments ∧
        out.rawWatson = Json.null ∧
        jsonMember "method".data out.result = false) ∧
      (∀ w, isWatsonConfigured env = true → upstream = Except.ok w →
        out.result = sniffGenerated w ∧ out.rawWatson = w) := by
  cases hconf : isWatsonConfigured env with
  | false =>
    refine ⟨_, analyzeLabReport_unconfigured env upstream rawText meta hconf, ?_, ?_⟩
    · intro _; exact ⟨rfl, rfl, rfl⟩
    · intro w hw; simp [hconf] at hw
  | true =>
    cases upstream with
    | error e =>
      refine ⟨_, analyzeLabReport_failed env e rawText meta hconf, ?_, ?_⟩
      · intro _; exact ⟨rfl, rfl, rfl⟩
      · intro w _ hup; cases hup
    | ok w =>
      refine ⟨_, analyzeLabReport_resolved env w rawText meta hconf, ?_, ?_⟩
      · rintro (h | ⟨e, he⟩)
        · simp at h
        · cases he
      · intro w2 _ hup
        cases hup
        exact ⟨rfl, rfl⟩

/-- C7: when the service is unconfigured (no full prediction URL and not
all of base URL, deployment id and API key), the entry point's result is
independent of every transport behavior (no network outcome is consulted),
and it synthesizes the local fallback directly from the assessments: an
`explanations` entry per assessment (templated key/explanation/severity),
an `action_items` entry `URGENT: see a doctor for <key>` exactly for the
severity-`severe` assessments, and a single generic follow-up question. -/
theorem C7_unconfigured_local_fallback (env : Env)
    (hconf : isWatsonConfigured env = false)
    (up1 up2 : Except String Json) (rawText : String) (meta : PatientMeta) :
    analyzeLabReport env up1 rawText meta = analyzeLabReport env up2 rawText meta ∧
    ∃ out : AnalyzeOut, analyzeLabReport env up1 rawText meta = Except.ok out ∧
      out.assessments = (parseLabValues rawText).map (fun p => assessValue p.1 p.2 meta) ∧
      out.rawWatson = Json.null ∧
      jsonGetField out.result "explanations".data
        = some (Json.arr (out.assessments.map fun a =>
            Json.obj [("key".data, Json.str a.key.data),
                      ("explanation".data, Json.str (localExplanation a)),
                      ("severity".data, Json.str a.severity.data)])) ∧
      jsonGetField out.result "action_items".data
        = some (Json.arr ((out.assessments.filter fun a => a.severity = "severe").map
            fun a => Json.str ("URGENT: see a doctor for ".data ++ a.key.data))) ∧
      jsonGetField out.result "questions".data
        = some (Json.arr [Json.str "Please consult a doctor for next steps.".data]) := by
  constructor
  · rw [analyzeLabReport_unconfigured env up1 rawText meta hconf,
      analyzeLabReport_unconfigured env up2 rawText meta hconf]
  · exact ⟨_, analyzeLabReport_unconfigured env up1 rawText meta hconf,
      rfl, rfl, rfl, rfl, rfl⟩

/-- C3: the merge of lab insights is NOT idempotent.  Each guard tests a
marker that the corresponding appended section never contains (the summary
guard looks for `Watson Lab Highlights` but appends `Watson AI Lab
Analysis`; the findings guard looks for `Watson Lab` but appends `Watson AI
Insights:`; the recommendations guard looks for `AI Lab Follow-ups` but
appends `AI-Recommended Actions`), so a second application appends the
sections again: on a concrete narrative with a lab result attached, the
double application succeeds and differs from the single application. -/
theorem C3_merge_not_idempotent :
    (((mergeLabInsightsIntoSections sampleAnalysis).bind
        mergeLabInsightsIntoSections).toOption.map
      fun a => (a.summary, a.findings, a.recommendations)) ≠ none ∧
    (((mergeLabInsightsIntoSections sampleAnalysis).bind
        mergeLabInsightsIntoSections).toOption.map
      fun a => (a.summary, a.findings, a.recommendations))
      ≠ ((mergeLabInsightsIntoSections sampleAnalysis).toOption.map
        fun a => (a.summary, a.findings, a.recommendations)) :=
  ⟨by decide, by decide⟩

theorem C2_provenance_witness :
    ∃ out : AnalyzeOut, analyzeLabReport {} (Except.error "down") "" {} = Except.ok out ∧
      ((isWatsonConfigured {} = false ∨ (∃ e, (Except.error "down" : Except String Json) = Except.error e)) →
        out.result = localFallbackResult out.assessments ∧
        out.rawWatson = Json.null ∧
        jsonMember "method".data out.result = false) ∧
      (∀ w, isWatsonConfigured {} = true → (Except.error "down" : Except String Json) = Except.ok w →
        out.result = sniffGenerated w ∧ out.rawWatson = w) :=
  C2_provenance {} (Except.error "down") "" {}

theorem C7_unconfigured_local_fallback_witness :
    isWatsonConfigured {} = false ∧
    analyzeLabReport {} (Except.error "down") "hemoglobin 8" { sex := "male" }
      = analyzeLabReport {} (Except.ok Json.null) "hemoglobin 8" { sex := "male" } :=
  ⟨rfl, (C7_unconfigured_local_fallback {} rfl (Except.error "down") (Except.ok Json.null)
    "hemoglobin 8" { sex := "male" }).1⟩

end MediSense
